import Mathlib

/-!
Verification of the OpenAPI-driven MCP server core against its design
specification.  The TypeScript sources are shallowly embedded: JSON values
become the inductive type `J`, JavaScript object/string operations become
executable Lean functions on field lists / `List Char`, recursive async
resolution becomes fuel-indexed structural recursion (with a proved
sufficiency bound standing in for the termination argument), and thrown
exceptions become `Except` errors.  Mutable-`Set` visited-pointer state is
threaded explicitly; `Promise.all` over branches is modelled as
left-to-right sequential threading (the JS scheduler is single-threaded and
the set only grows, so this is the deterministic sequential semantics of the
source).  The JS `in` operator on plain JSON data is modelled as own-key
membership (prototype-chain lookups are outside the data model).
-/

namespace MCP

/-! JSON-like values, the data model for OpenAPI schemas, tool inputs and
protocol payloads.  Object fields keep insertion order, as JS objects do.
`JList`/`JObj` are inlined list types so that all recursion over values is
structural (and hence kernel-computable). -/
mutual
inductive J where
  | null
  | bool (b : Bool)
  | num (n : Int)
  | str (s : String)
  | arr (elems : JList)
  | obj (fields : JObj)
deriving Repr, DecidableEq
inductive JList where
  | nil
  | cons (head : J) (tail : JList)
deriving Repr, DecidableEq
inductive JObj where
  | nil
  | cons (key : String) (val : J) (tail : JObj)
deriving Repr, DecidableEq
end

def JList.toList : JList → List J
  | .nil => []
  | .cons x xs => x :: xs.toList

def JObj.toList : JObj → List (String × J)
  | .nil => []
  | .cons k v kvs => (k, v) :: kvs.toList

def JList.ofList : List J → JList
  | [] => .nil
  | x :: xs => .cons x (JList.ofList xs)

def JObj.ofList : List (String × J) → JObj
  | [] => .nil
  | (k, v) :: kvs => .cons k v (JObj.ofList kvs)

/-- Convenience constructor: object from a field list. -/
def J.objL (kvs : List (String × J)) : J := .obj (JObj.ofList kvs)

/-- Convenience constructor: array from an element list. -/
def J.arrL (xs : List J) : J := .arr (JList.ofList xs)

/-! Structural size of a value, used for fuel bounds. -/
mutual
def sizeJ : J → Nat
  | .null | .bool _ | .num _ | .str _ => 1
  | .arr xs => sizeL xs + 1
  | .obj kvs => sizeO kvs + 1
def sizeL : JList → Nat
  | .nil => 0
  | .cons x xs => sizeJ x + sizeL xs + 1
def sizeO : JObj → Nat
  | .nil => 0
  | .cons _ v kvs => sizeJ v + sizeO kvs + 2
end

/-- JavaScript truthiness of a value. -/
def truthy : J → Bool
  | .null => false
  | .bool b => b
  | .num n => n != 0
  | .str s => s ≠ ""
  | .arr _ => true
  | .obj _ => true

/-- First field with the given key (JS property access on objects built from
JSON, which have unique keys). -/
def lookupField : List (String × J) → String → Option J
  | [], _ => none
  | (k, v) :: rest, key => if k = key then some v else lookupField rest key

/-- Drop a key from an object's fields (JS rest-destructuring / `delete`). -/
def removeField (kvs : List (String × J)) (key : String) : List (String × J) :=
  kvs.filter (fun kv => kv.1 ≠ key)

/-- Values that pass `x && typeof x === 'object'` in JS (arrays included,
`null` excluded by truthiness). -/
def isObjOrArr : J → Bool
  | .obj _ => true
  | .arr _ => true
  | _ => false

/-- Enumerable own fields contributed by object spread `{...x}`: an object
spreads its fields, an array its indexed elements, a string its characters;
other primitives contribute nothing. -/
def spreadFields : J → List (String × J)
  | .obj kvs => kvs.toList
  | .arr xs => xs.toList.enum.map (fun p => (toString p.1, p.2))
  | .str s => s.data.enum.map (fun p => (toString p.1, .str (String.mk [p.2])))
  | _ => []

/-- JS object literal merge `{...a, ...b}`: keys of `a` in order (values
overridden by `b` on conflict), then the keys of `b` not already in `a`. -/
def mergeSpread (a b : List (String × J)) : List (String × J) :=
  a.map (fun kv => (kv.1, (lookupField b kv.1).getD kv.2)) ++
    b.filter (fun kv => (lookupField a kv.1).isNone)

/-! ### Character-list string operations

The JS string operations used by the sources, written out on `List Char` so
that they are structurally recursive and kernel-computable. -/

/-- One global pass of `.replace(/~1/g, '/')`. -/
def replT1 : List Char → List Char
  | '~' :: '1' :: rest => '/' :: replT1 rest
  | c :: rest => c :: replT1 rest
  | [] => []

/-- One global pass of `.replace(/~0/g, '~')`. -/
def replT0 : List Char → List Char
  | '~' :: '0' :: rest => '~' :: replT0 rest
  | c :: rest => c :: replT0 rest
  | [] => []

/-- JSON-Pointer segment decoding: `~1` → `/` then `~0` → `~`. -/
def decodeSeg (part : String) : String :=
  String.mk (replT0 (replT1 part.data))

/-- `String.prototype.split('/')`, keeping empty segments. -/
def splitSlash : List Char → List (List Char)
  | [] => [[]]
  | '/' :: rest => [] :: splitSlash rest
  | c :: rest =>
    match splitSlash rest with
    | s :: ss => (c :: s) :: ss
    | [] => [[c]]

/-- Digits-only parse of a canonical array index ("0", "1", …, no leading
zeros), as used by JS own-index membership on arrays. -/
def jsIndex (s : String) : Option Nat :=
  match s.data with
  | [] => none
  | ['0'] => some 0
  | c :: rest =>
    if c.isDigit ∧ c ≠ '0' ∧ rest.all Char.isDigit then
      some ((c :: rest).foldl (fun n d => n * 10 + (d.toNat - '0'.toNat)) 0)
    else none

/-- One step of a JSON-Pointer walk: `decodedPart in current` followed by
`current[decodedPart]`, on own keys of objects and indices of arrays. -/
def jsGet (node : J) (key : String) : Option J :=
  match node with
  | .obj kvs => lookupField kvs.toList key
  | .arr xs =>
    match jsIndex key with
    | some i => xs.toList[i]?
    | none => none
  | _ => none

/-! ### SchemaResolver (src/openapi/schema-resolver.ts)

`resolveSchema` / `resolveRef` expand `$ref` pointers.  The JS recursion
terminates because the shared `visited` set only grows; here the recursion
is fuel-indexed (`resolveSchemaF`) and `fuelBound` below is proved
sufficient, which is the termination argument.  Thrown exceptions become
`RErr` values. -/

/-- Failure modes of schema resolution.  `fuel` is the out-of-fuel marker of
the embedding (proved unreachable for the fuel chosen by `resolveSchema`);
the others model the `throw`s and type errors of the JS code. -/
inductive RErr where
  | fuel
  | externalRef (ref : String)  -- throw (`External references not supported: ...`)
  | invalidRef (ref : String)   -- throw (`Invalid reference: ...`)
  | typeError                   -- JS TypeError (e.g. `.map`/`.startsWith` on a wrong shape)
deriving Repr, DecidableEq

/-- Outcome of the non-recursive part of `resolveRef` (lines 120-147):
cycle-marker return, one of the two throws, or descent into the pointer
target with the ref added to the visited set. -/
inductive RefStep where
  | cycleMarker
  | failExternal
  | failInvalid
  | descend (target : J) (visited : List String)

/-- Walk the spec along decoded pointer segments (`for (const part of parts)`). -/
def walkPointer (root : J) : List String → Option J
  | [] => some root
  | part :: rest =>
    match jsGet root (decodeSeg part) with
    | some next => walkPointer next rest
    | none => none

/-- The non-recursive part of `SchemaResolver.resolveRef`: check the visited
set, record the ref, reject non-local refs, split and decode the JSON
Pointer and walk the spec. -/
def resolveRefCore (spec : J) (ref : String) (visited : List String) : RefStep :=
  if visited.contains ref then .cycleMarker
  else
    let visited' := ref :: visited
    match ref.data with
    | '#' :: '/' :: pointerChars =>
      match walkPointer spec ((splitSlash pointerChars).map String.mk) with
      | none => .failInvalid
      | some target => .descend target visited'
    | _ => .failExternal

/-- Classification of a node's `$ref` field under `if (schema.$ref)`:
a non-empty string ref, a truthy non-string (the JS code would crash calling
`.startsWith` on it), or no truthy ref at all. -/
inductive RefField where
  | strRef (r : String)
  | badRef
  | noRef

def classifyRef (kvs : List (String × J)) : RefField :=
  match lookupField kvs "$ref" with
  | some (.str r) => if r = "" then .noRef else .strRef r
  | some x => if truthy x then .badRef else .noRef
  | none => .noRef

/-- Thread a visited-set-passing action over a list, left to right, stopping
at the first error.  This is the sequential semantics of the source's
per-child `await`s (and of its `Promise.all`, see the header comment). -/
def threadMap (f : α → List String → Except RErr (β × List String)) :
    List α → List String → Except RErr (List β × List String)
  | [], v => .ok ([], v)
  | a :: rest, v =>
    match f a v with
    | .error e => .error e
    | .ok (b, v₁) =>
      match threadMap f rest v₁ with
      | .error e => .error e
      | .ok (bs, v₂) => .ok (b :: bs, v₂)

/-- Error propagation of a single awaited child result, re-attaching the
field key (`result[key] = await this.resolveSchema(...)`). -/
def wrapEntryVal (k : String) (res : Except RErr (J × List String)) :
    Except RErr ((String × J) × List String) :=
  match res with
  | .error e => .error e
  | .ok (x, v2) => .ok ((k, x), v2)

/-- Error propagation for a resolved `properties` object value. -/
def wrapObjField (k : String) (res : Except RErr (List (String × J) × List String)) :
    Except RErr ((String × J) × List String) :=
  match res with
  | .error e => .error e
  | .ok (pkvs2, v2) => .ok ((k, J.objL pkvs2), v2)

/-- Error propagation for a resolved array value (`properties` as an array,
or an `allOf`/`anyOf`/`oneOf` list). -/
def wrapArrField (k : String) (res : Except RErr (List J × List String)) :
    Except RErr ((String × J) × List String) :=
  match res with
  | .error e => .error e
  | .ok (xs2, v2) => .ok ((k, J.arrL xs2), v2)

/-- Error propagation rebuilding the object after the key loop. -/
def wrapObjOut (res : Except RErr (List (String × J) × List String)) :
    Except RErr (J × List String) :=
  match res with
  | .error e => .error e
  | .ok (kvs2, v2) => .ok (J.objL kvs2, v2)

/-- Error propagation of a resolved `$ref`, merging the resolved target with
the sibling fields (`{ ...resolved, ...siblings }`). -/
def wrapMerge (kvs : List (String × J)) (res : Except RErr (J × List String)) :
    Except RErr (J × List String) :=
  match res with
  | .error e => .error e
  | .ok (resolved, v2) =>
    .ok (J.objL (mergeSpread (spreadFields resolved) (removeField kvs "$ref")), v2)

/-- Per-field step of the `for (const key of Object.keys(result))` loop of
`resolveSchema`, parameterised by the recursive resolver `recur`.  Only
`properties`, `items`, `allOf`/`anyOf`/`oneOf` and `additionalProperties`
values that are truthy objects are descended into; every other field passes
through unchanged.  Calling `.map` on a non-array composition value is the
JS TypeError. -/
def resolveEntryWith (recur : J → List String → Except RErr (J × List String))
    (kv : String × J) (v : List String) :
    Except RErr ((String × J) × List String) :=
  let key := kv.1
  let val := kv.2
  if isObjOrArr val then
    if key = "properties" then
      match val with
      | .obj pkvs =>
        wrapObjField key
          (threadMap (fun pkv w => wrapEntryVal pkv.1 (recur pkv.2 w)) pkvs.toList v)
      | .arr xs => wrapArrField key (threadMap recur xs.toList v)
      | _ => .ok ((key, val), v)
    else if key = "items" then
      wrapEntryVal key (recur val v)
    else if key = "allOf" ∨ key = "anyOf" ∨ key = "oneOf" then
      match val with
      | .arr xs => wrapArrField key (threadMap recur xs.toList v)
      | _ => .error .typeError
    else if key = "additionalProperties" then
      wrapEntryVal key (recur val v)
    else .ok ((key, val), v)
  else .ok ((key, val), v)

/-- Fuel-indexed `SchemaResolver.resolveSchema`.  Non-objects (including
arrays, whose numeric keys match none of the special field names) are
returned unchanged; a node with a truthy string `$ref` resolves the ref and
merges the result with the sibling fields (`{ ...resolved, ...siblings }`);
otherwise each field is processed in order by `resolveEntryWith`. -/
def resolveSchemaF (spec : J) : Nat → J → List String → Except RErr (J × List String)
  | 0, _, _ => .error .fuel
  | fuel + 1, schema, visited =>
    match schema with
    | .obj fields =>
      let kvs := fields.toList
      match classifyRef kvs with
      | .badRef => .error .typeError
      | .strRef ref =>
        match resolveRefCore spec ref visited with
        | .cycleMarker =>
          .ok (J.objL (mergeSpread [("$ref", .str ref)] (removeField kvs "$ref")), visited)
        | .failExternal => .error (.externalRef ref)
        | .failInvalid => .error (.invalidRef ref)
        | .descend target visited' =>
          wrapMerge kvs (resolveSchemaF spec fuel target visited')
      | .noRef =>
        wrapObjOut
          (threadMap (resolveEntryWith (fun s v => resolveSchemaF spec fuel s v))
            kvs visited)
    | other => .ok (other, visited)

/-- Fuel budget for a top-level resolution: enough for the structural depth
plus one spec-sized descent per distinct pointer (`fuel_sufficient` below
proves it is never exhausted). -/
def fuelBound (spec schema : J) : Nat :=
  sizeJ schema + (sizeJ spec + sizeJ schema + 1) * (sizeJ spec + 4) + 1

/-- `resolveSchema(schema)` with the default empty visited set. -/
def resolveSchema (spec schema : J) : Except RErr (J × List String) :=
  resolveSchemaF spec (fuelBound spec schema) schema []

/-! ### More JS string helpers used by the generator and handler -/

/-- `String.prototype.split('.')`, keeping empty segments. -/
def splitDot : List Char → List (List Char)
  | [] => [[]]
  | '.' :: rest => [] :: splitDot rest
  | c :: rest =>
    match splitDot rest with
    | s :: ss => (c :: s) :: ss
    | [] => [[c]]

/-- `s.charAt(0).toLowerCase() + s.slice(1)` (on the empty string, `''`). -/
def lowerFirst : List Char → List Char
  | [] => []
  | c :: rest => c.toLower :: rest

/-- `s.charAt(0).toUpperCase() + s.slice(1)` (on the empty string, `''`). -/
def capFirst : List Char → List Char
  | [] => []
  | c :: rest => c.toUpper :: rest

/-- Substring test (`String.prototype.includes`). -/
def containsSub (hay needle : List Char) : Bool :=
  needle.isPrefixOf hay ||
    match hay with
    | [] => false
    | _ :: t => containsSub t needle

/-- `Array.prototype.join(',')`. -/
def joinComma : List String → String
  | [] => ""
  | [s] => s
  | s :: rest => s ++ "," ++ joinComma rest

/-- JS `String(value)` coercion, fuel-indexed for the nested array case
(`null` elements of an array print as the empty string). -/
def jsToStringF : Nat → J → String
  | 0, _ => ""
  | n + 1, v =>
    match v with
    | .null => "null"
    | .bool true => "true"
    | .bool false => "false"
    | .num i => toString i
    | .str s => s
    | .arr xs => joinComma (xs.toList.map (fun x =>
        match x with
        | .null => ""
        | y => jsToStringF n y))
    | .obj _ => "[object Object]"

def jsToString (v : J) : String := jsToStringF (sizeJ v) v

/-! ### OpenAPIToolGenerator.operationIdToMethod (generator.ts lines 342-358)

Split the operation id on `.`, lower-case the first segment's leading
character, then append each later segment with its leading character
capitalized.  (Note: this function does not strip a `Controller` suffix;
that happens only in the separate `generateToolNameFromOperation`.) -/

def operationIdToMethod (operationId : String) : String :=
  if operationId = "" then ""
  else
    match splitDot operationId.data with
    | [] => operationId  -- `parts.length === 0`, unreachable for split results
    | p0 :: rest =>
      String.mk (rest.foldl (fun acc p => acc ++ capFirst p) (lowerFirst p0))

/-- Modelled from the spec (§4.2 "operation-identifier-to-callable-name
mapping"): the mapping as the specification words it, including stripping a
trailing `Controller` suffix from the first segment.  Used only to compare
the specified mapping against the implemented one. -/
def specOperationIdToMethod (operationId : String) : String :=
  if operationId = "" then ""
  else
    match splitDot operationId.data with
    | [] => operationId
    | p0 :: rest =>
      let stripped :=
        if "Controller".data.isSuffixOf p0 then p0.take (p0.length - "Controller".data.length)
        else p0
      String.mk (rest.foldl (fun acc p => acc ++ capFirst p) (lowerFirst stripped))

/-! ### SessionManager (session.ts)

An in-memory `Map` from session id to `{ created }`; `create` inserts a
fresh `randomUUID()`, `getOrCreate` returns a truthy, known supplied id
as-is and otherwise creates.  The UUID is passed in as the `fresh`
parameter, with freshness (`randomUUID` never collides with a live session)
as an explicit hypothesis where needed. -/

def sessHas (store : List (String × Nat)) (sid : String) : Bool :=
  store.any (fun p => p.1 = sid)

/-- `create()`: insert the fresh UUID with the current time, return it. -/
def sessCreate (store : List (String × Nat)) (fresh : String) (now : Nat) :
    String × List (String × Nat) :=
  (fresh, store ++ [(fresh, now)])

/-- `getOrCreate(sessionId)`: `sessionId && this.has(sessionId)` keeps the
supplied id, otherwise a new session is created. -/
def getOrCreate (store : List (String × Nat)) (supplied : Option String)
    (fresh : String) (now : Nat) : (String × Bool) × List (String × Nat) :=
  match supplied with
  | some sid =>
    if sid ≠ "" ∧ sessHas store sid then ((sid, false), store)
    else
      let c := sessCreate store fresh now
      ((c.1, true), c.2)
  | none =>
    let c := sessCreate store fresh now
    ((c.1, true), c.2)

/-! ### SchemaResolver.toMCPSchema (schema-resolver.ts lines 59-115)

Strips OpenAPI-only annotation fields, converts `nullable: true` into a
type union containing `"null"` (only when a truthy `type` is present), and
recurses through `properties`, `items`, the three composition keys and
`additionalProperties`.  Fuel-indexed like the resolver; `.map` on a
truthy non-array composition value is the JS TypeError. -/

def openAPIFields : List String :=
  ["discriminator", "xml", "externalDocs", "example", "deprecated",
   "readOnly", "writeOnly", "nullable"]

/-- The `delete result[field]` loop. -/
def deleteFields (kvs : List (String × J)) (keys : List String) :
    List (String × J) :=
  kvs.filter (fun kv => !(keys.contains kv.1))

/-- In-place update of an existing key (JS property assignment). -/
def setField : List (String × J) → String → J → List (String × J)
  | [], _, _ => []
  | (k2, v) :: rest, k, newV =>
    if k2 = k then (k2, newV) :: setField rest k newV
    else (k2, v) :: setField rest k newV

/-- `Array.isArray(t) ? [...t, 'null'] : [t, 'null']`. -/
def typeWithNull (t : J) : J :=
  match t with
  | .arr xs => .arr (JList.ofList (xs.toList ++ [.str "null"]))
  | other => J.arrL [other, .str "null"]

/-- Map a fallible function over object field values, keeping keys. -/
def mapValsM (f : J → Except RErr J) : List (String × J) →
    Except RErr (List (String × J))
  | [] => .ok []
  | (k, v) :: rest =>
    match f v with
    | .error e => .error e
    | .ok v2 =>
      match mapValsM f rest with
      | .error e => .error e
      | .ok rest2 => .ok ((k, v2) :: rest2)

/-- Map a fallible function over list elements. -/
def mapListM (f : J → Except RErr J) : List J → Except RErr (List J)
  | [] => .ok []
  | x :: rest =>
    match f x with
    | .error e => .error e
    | .ok x2 =>
      match mapListM f rest with
      | .error e => .error e
      | .ok rest2 => .ok (x2 :: rest2)

/-- Recurse into one field when present and passing its guard, assigning
the result back in place. -/
def updateFieldM (kvs : List (String × J)) (k : String) (guard : J → Bool)
    (f : J → Except RErr J) : Except RErr (List (String × J)) :=
  match lookupField kvs k with
  | some v =>
    if guard v then
      match f v with
      | .error e => .error e
      | .ok v2 => .ok (setField kvs k v2)
    else .ok kvs
  | none => .ok kvs

/-- Recursion into a `properties` value: objects map their field values,
arrays their indexed elements (`Object.keys` enumerates indices). A truthy
string has enumerable indices too, but assigning to a primitive's index
throws in strict mode; truthy numbers and booleans have no keys and pass
through untouched. -/
def mcpProps (recur : J → Except RErr J) (p : J) : Except RErr J :=
  match p with
  | .obj pkvs =>
    match mapValsM recur pkvs.toList with
    | .error e => .error e
    | .ok pkvs2 => .ok (J.objL pkvs2)
  | .arr xs =>
    match mapListM recur xs.toList with
    | .error e => .error e
    | .ok xs2 => .ok (J.arrL xs2)
  | .str _ => .error .typeError
  | other => .ok other

/-- Recursion into a composition value: `.map` over an array, TypeError on
any other truthy value. -/
def mcpComp (recur : J → Except RErr J) (v : J) : Except RErr J :=
  match v with
  | .arr xs =>
    match mapListM recur xs.toList with
    | .error e => .error e
    | .ok xs2 => .ok (J.arrL xs2)
  | _ => .error .typeError

/-- Field deletion followed by the conditional `nullable` / type-union step
(lines 64-77 of toMCPSchema): the OpenAPI-only fields are deleted, then, if
the ORIGINAL object had `nullable === true` and the remaining `type` is
truthy, `type` becomes the union with `'null'`. -/
def mcpR2 (fields : JObj) : List (String × J) :=
  let r1 := deleteFields fields.toList openAPIFields
  if lookupField fields.toList "nullable" = some (.bool true) then
    match lookupField r1 "type" with
    | some t => if truthy t then setField r1 "type" (typeWithNull t) else r1
    | none => r1
  else r1

/-- The six in-place recursions of toMCPSchema (properties, items, allOf,
anyOf, oneOf, additionalProperties), each guarded as in the source. -/
def mcpChain (recur : J → Except RErr J) (r2 : List (String × J)) :
    Except RErr (List (String × J)) :=
  match updateFieldM r2 "properties" truthy (mcpProps recur) with
  | .error e => .error e
  | .ok r3 =>
    match updateFieldM r3 "items" truthy recur with
    | .error e => .error e
    | .ok r4 =>
      match updateFieldM r4 "allOf" truthy (mcpComp recur) with
      | .error e => .error e
      | .ok r5 =>
        match updateFieldM r5 "anyOf" truthy (mcpComp recur) with
        | .error e => .error e
        | .ok r6 =>
          match updateFieldM r6 "oneOf" truthy (mcpComp recur) with
          | .error e => .error e
          | .ok r7 =>
            updateFieldM r7 "additionalProperties"
              (fun v => truthy v && isObjOrArr v) recur

/-- Fuel-indexed `SchemaResolver.toMCPSchema`. -/
def toMCPF : Nat → J → Except RErr J
  | 0, _ => .error .fuel
  | fuel + 1, schema =>
    match schema with
    | .obj fields =>
      match mcpChain (fun x => toMCPF fuel x) (mcpR2 fields) with
      | .error e => .error e
      | .ok r8 => .ok (J.objL r8)
    | other => .ok other

/-- `toMCPSchema(schema)` with sufficient fuel. -/
def toMCPSchema (schema : J) : Except RErr J := toMCPF (sizeJ schema) schema

theorem lookupField_filter (p : String × J → Bool) (k : String)
    (hp : ∀ v, p (k, v) = true) :
    ∀ kvs : List (String × J),
      lookupField (kvs.filter p) k = lookupField kvs k := by
  intro kvs
  induction kvs with
  | nil => rfl
  | cons kv rest ih =>
    obtain ⟨k2, v2⟩ := kv
    by_cases hkk : k2 = k
    · subst hkk
      rw [List.filter_cons, if_pos (hp v2)]
      simp [lookupField]
    · rw [List.filter_cons]
      by_cases hpv : p (k2, v2) = true
      · rw [if_pos hpv]
        simp only [lookupField, if_neg hkk]
        exact ih
      · rw [if_neg hpv]
        rw [ih]
        simp only [lookupField, if_neg hkk]

theorem lookupField_filter_none (p : String × J → Bool) (k : String)
    (hp : ∀ v, p (k, v) = false) :
    ∀ kvs : List (String × J), lookupField (kvs.filter p) k = none := by
  intro kvs
  induction kvs with
  | nil => rfl
  | cons kv rest ih =>
    obtain ⟨k2, v2⟩ := kv
    by_cases hkk : k2 = k
    · subst hkk
      rw [List.filter_cons, if_neg (by simp [hp v2])]
      exact ih
    · rw [List.filter_cons]
      by_cases hpv : p (k2, v2) = true
      · rw [if_pos hpv]
        simp only [lookupField, if_neg hkk]
        exact ih
      · rw [if_neg hpv]
        exact ih

theorem lookupField_deleteFields_not_mem (kvs : List (String × J))
    (keys : List String) (k : String) (hk : keys.contains k = false) :
    lookupField (deleteFields kvs keys) k = lookupField kvs k :=
  lookupField_filter _ k (fun _ => by simp only [hk, Bool.not_false]) kvs

theorem lookupField_deleteFields_mem (kvs : List (String × J))
    (keys : List String) (k : String) (hk : keys.contains k = true) :
    lookupField (deleteFields kvs keys) k = none :=
  lookupField_filter_none _ k (fun _ => by simp only [hk, Bool.not_true]) kvs

theorem lookupField_setField_ne (k k2 : String) (x : J) (h : k2 ≠ k) :
    ∀ kvs : List (String × J),
      lookupField (setField kvs k x) k2 = lookupField kvs k2 := by
  intro kvs
  induction kvs with
  | nil => rfl
  | cons kv rest ih =>
    obtain ⟨k3, v3⟩ := kv
    by_cases h3 : k3 = k
    · subst h3
      simp only [setField, if_pos rfl, lookupField]
      rw [if_neg (fun hc => h hc.symm), if_neg (fun hc => h hc.symm)]
      exact ih
    · simp only [setField, if_neg h3, lookupField]
      by_cases he : k3 = k2
      · rw [if_pos he, if_pos he]
      · rw [if_neg he, if_neg he]
        exact ih

theorem lookupField_setField_some (k : String) (x : J) :
    ∀ (kvs : List (String × J)) (v : J), lookupField kvs k = some v →
      lookupField (setField kvs k x) k = some x := by
  intro kvs
  induction kvs with
  | nil => intro v h; cases h
  | cons kv rest ih =>
    intro v h
    obtain ⟨k3, v3⟩ := kv
    by_cases h3 : k3 = k
    · subst h3
      simp [setField, lookupField]
    · simp only [setField, if_neg h3, lookupField, if_neg h3]
      simp only [lookupField, if_neg h3] at h
      exact ih v h

theorem updateFieldM_ok_lookup_ne (kvs kvs2 : List (String × J)) (k : String)
    (guard : J → Bool) (f : J → Except RErr J)
    (h : updateFieldM kvs k guard f = .ok kvs2) (k2 : String) (hne : k2 ≠ k) :
    lookupField kvs2 k2 = lookupField kvs k2 := by
  cases hl : lookupField kvs k with
  | none =>
    simp only [updateFieldM, hl] at h
    cases h
    rfl
  | some v =>
    simp only [updateFieldM, hl] at h
    by_cases hg : guard v = true
    · rw [if_pos hg] at h
      cases hf : f v with
      | error e => rw [hf] at h; cases h
      | ok v2 =>
        rw [hf] at h
        cases h
        exact lookupField_setField_ne k k2 v2 hne kvs
    · rw [if_neg hg] at h
      cases h
      rfl

theorem updateFieldM_ok_hit (kvs kvs2 : List (String × J)) (k : String)
    (guard : J → Bool) (f : J → Except RErr J) (v : J)
    (h : updateFieldM kvs k guard f = .ok kvs2)
    (hl : lookupField kvs k = some v) (hg : guard v = true) :
    ∃ v2, f v = .ok v2 ∧ lookupField kvs2 k = some v2 := by
  simp only [updateFieldM, hl, if_pos hg] at h
  cases hf : f v with
  | error e => rw [hf] at h; cases h
  | ok v2 =>
    rw [hf] at h
    cases h
    exact ⟨v2, rfl, lookupField_setField_some k v2 kvs v hl⟩

theorem mapValsM_mem (f : J → Except RErr J) :
    ∀ (l l2 : List (String × J)) (k : String) (x : J),
      mapValsM f l = .ok l2 → (k, x) ∈ l →
      ∃ x2, f x = .ok x2 ∧ (k, x2) ∈ l2 := by
  intro l
  induction l with
  | nil => intro l2 k x _ hm; cases hm
  | cons kv rest ih =>
    intro l2 k x h hm
    obtain ⟨k3, v3⟩ := kv
    rw [mapValsM] at h
    cases hf : f v3 with
    | error e => rw [hf] at h; cases h
    | ok v2 =>
      rw [hf] at h
      cases hrest : mapValsM f rest with
      | error e => rw [hrest] at h; cases h
      | ok rest2 =>
        rw [hrest] at h
        cases h
        rcases List.mem_cons.mp hm with heq | hmem
        · cases heq
          exact ⟨v2, hf, List.mem_cons_self _ _⟩
        · obtain ⟨x2, hx2, hm2⟩ := ih rest2 k x hrest hmem
          exact ⟨x2, hx2, List.mem_cons_of_mem _ hm2⟩

theorem mapListM_mem (f : J → Except RErr J) :
    ∀ (l l2 : List J) (x : J),
      mapListM f l = .ok l2 → x ∈ l → ∃ x2, f x = .ok x2 ∧ x2 ∈ l2 := by
  intro l
  induction l with
  | nil => intro l2 x _ hm; cases hm
  | cons y rest ih =>
    intro l2 x h hm
    rw [mapListM] at h
    cases hf : f y with
    | error e => rw [hf] at h; cases h
    | ok y2 =>
      rw [hf] at h
      cases hrest : mapListM f rest with
      | error e => rw [hrest] at h; cases h
      | ok rest2 =>
        rw [hrest] at h
        cases h
        rcases List.mem_cons.mp hm with heq | hmem
        · cases heq
          exact ⟨y2, hf, List.mem_cons_self _ _⟩
        · obtain ⟨x2, hx2, hm2⟩ := ih rest2 x hrest hmem
          exact ⟨x2, hx2, List.mem_cons_of_mem _ hm2⟩

theorem objToList_ofList : ∀ l : List (String × J), (JObj.ofList l).toList = l
  | [] => rfl
  | (k, v) :: rest => by
    simp only [JObj.ofList, JObj.toList]
    rw [objToList_ofList rest]

theorem listToList_ofList : ∀ l : List J, (JList.ofList l).toList = l
  | [] => rfl
  | x :: rest => by
    simp only [JList.ofList, JList.toList]
    rw [listToList_ofList rest]

theorem mcpChain_spec (recur : J → Except RErr J) (r2 r8 : List (String × J))
    (h : mcpChain recur r2 = .ok r8) :
    (∀ k2, k2 ≠ "properties" → k2 ≠ "items" → k2 ≠ "allOf" → k2 ≠ "anyOf" →
      k2 ≠ "oneOf" → k2 ≠ "additionalProperties" →
      lookupField r8 k2 = lookupField r2 k2) ∧
    (∀ p, lookupField r2 "properties" = some p → truthy p = true →
      ∃ p2, mcpProps recur p = .ok p2 ∧ lookupField r8 "properties" = some p2) ∧
    (∀ v, lookupField r2 "items" = some v → truthy v = true →
      ∃ v2, recur v = .ok v2 ∧ lookupField r8 "items" = some v2) ∧
    (∀ k v, (k = "allOf" ∨ k = "anyOf" ∨ k = "oneOf") →
      lookupField r2 k = some v → truthy v = true →
      ∃ v2, mcpComp recur v = .ok v2 ∧ lookupField r8 k = some v2) ∧
    (∀ v, lookupField r2 "additionalProperties" = some v →
      (truthy v && isObjOrArr v) = true →
      ∃ v2, recur v = .ok v2 ∧
        lookupField r8 "additionalProperties" = some v2) := by
  unfold mcpChain at h
  cases h3 : updateFieldM r2 "properties" truthy (mcpProps recur) with
  | error e => simp only [h3] at h; cases h
  | ok r3 =>
  simp only [h3] at h
  cases h4 : updateFieldM r3 "items" truthy recur with
  | error e => simp only [h4] at h; cases h
  | ok r4 =>
  simp only [h4] at h
  cases h5 : updateFieldM r4 "allOf" truthy (mcpComp recur) with
  | error e => simp only [h5] at h; cases h
  | ok r5 =>
  simp only [h5] at h
  cases h6 : updateFieldM r5 "anyOf" truthy (mcpComp recur) with
  | error e => simp only [h6] at h; cases h
  | ok r6 =>
  simp only [h6] at h
  cases h7 : updateFieldM r6 "oneOf" truthy (mcpComp recur) with
  | error e => simp only [h7] at h; cases h
  | ok r7 =>
  simp only [h7] at h
  refine ⟨?_, ?_, ?_, ?_, ?_⟩
  · intro k2 hp hi ha1 ha2 ha3 hap
    rw [updateFieldM_ok_lookup_ne r7 r8 _ _ _ h k2 hap,
      updateFieldM_ok_lookup_ne r6 r7 _ _ _ h7 k2 ha3,
      updateFieldM_ok_lookup_ne r5 r6 _ _ _ h6 k2 ha2,
      updateFieldM_ok_lookup_ne r4 r5 _ _ _ h5 k2 ha1,
      updateFieldM_ok_lookup_ne r3 r4 _ _ _ h4 k2 hi,
      updateFieldM_ok_lookup_ne r2 r3 _ _ _ h3 k2 hp]
  · intro p hp htr
    obtain ⟨p2, hrec, hl3⟩ := updateFieldM_ok_hit r2 r3 _ _ _ p h3 hp htr
    refine ⟨p2, hrec, ?_⟩
    rw [updateFieldM_ok_lookup_ne r7 r8 _ _ _ h _ (by decide),
      updateFieldM_ok_lookup_ne r6 r7 _ _ _ h7 _ (by decide),
      updateFieldM_ok_lookup_ne r5 r6 _ _ _ h6 _ (by decide),
      updateFieldM_ok_lookup_ne r4 r5 _ _ _ h5 _ (by decide),
      updateFieldM_ok_lookup_ne r3 r4 _ _ _ h4 _ (by decide)]
    exact hl3
  · intro v hv htr
    rw [← updateFieldM_ok_lookup_ne r2 r3 _ _ _ h3 "items" (by decide)] at hv
    obtain ⟨v2, hrec, hl4⟩ := updateFieldM_ok_hit r3 r4 _ _ _ v h4 hv htr
    refine ⟨v2, hrec, ?_⟩
    rw [updateFieldM_ok_lookup_ne r7 r8 _ _ _ h _ (by decide),
      updateFieldM_ok_lookup_ne r6 r7 _ _ _ h7 _ (by decide),
      updateFieldM_ok_lookup_ne r5 r6 _ _ _ h6 _ (by decide),
      updateFieldM_ok_lookup_ne r4 r5 _ _ _ h5 _ (by decide)]
    exact hl4
  · intro k v hk hv htr
    rcases hk with hk | hk | hk
    · subst hk
      rw [← updateFieldM_ok_lookup_ne r2 r3 _ _ _ h3 "allOf" (by decide),
        ← updateFieldM_ok_lookup_ne r3 r4 _ _ _ h4 "allOf" (by decide)] at hv
      obtain ⟨v2, hrec, hl5⟩ := updateFieldM_ok_hit r4 r5 _ _ _ v h5 hv htr
      refine ⟨v2, hrec, ?_⟩
      rw [updateFieldM_ok_lookup_ne r7 r8 _ _ _ h _ (by decide),
        updateFieldM_ok_lookup_ne r6 r7 _ _ _ h7 _ (by decide),
        updateFieldM_ok_lookup_ne r5 r6 _ _ _ h6 _ (by decide)]
      exact hl5
    · subst hk
      rw [← updateFieldM_ok_lookup_ne r2 r3 _ _ _ h3 "anyOf" (by decide),
        ← updateFieldM_ok_lookup_ne r3 r4 _ _ _ h4 "anyOf" (by decide),
        ← updateFieldM_ok_lookup_ne r4 r5 _ _ _ h5 "anyOf" (by decide)] at hv
      obtain ⟨v2, hrec, hl6⟩ := updateFieldM_ok_hit r5 r6 _ _ _ v h6 hv htr
      refine ⟨v2, hrec, ?_⟩
      rw [updateFieldM_ok_lookup_ne r7 r8 _ _ _ h _ (by decide),
        updateFieldM_ok_lookup_ne r6 r7 _ _ _ h7 _ (by decide)]
      exact hl6
    · subst hk
      rw [← updateFieldM_ok_lookup_ne r2 r3 _ _ _ h3 "oneOf" (by decide),
        ← updateFieldM_ok_lookup_ne r3 r4 _ _ _ h4 "oneOf" (by decide),
        ← updateFieldM_ok_lookup_ne r4 r5 _ _ _ h5 "oneOf" (by decide),
        ← updateFieldM_ok_lookup_ne r5 r6 _ _ _ h6 "oneOf" (by decide)] at hv
      obtain ⟨v2, hrec, hl7⟩ := updateFieldM_ok_hit r6 r7 _ _ _ v h7 hv htr
      refine ⟨v2, hrec, ?_⟩
      rw [updateFieldM_ok_lookup_ne r7 r8 _ _ _ h _ (by decide)]
      exact hl7
  · intro v hv htr
    rw [← updateFieldM_ok_lookup_ne r2 r3 _ _ _ h3 "additionalProperties"
        (by decide),
      ← updateFieldM_ok_lookup_ne r3 r4 _ _ _ h4 "additionalProperties"
        (by decide),
      ← updateFieldM_ok_lookup_ne r4 r5 _ _ _ h5 "additionalProperties"
        (by decide),
      ← updateFieldM_ok_lookup_ne r5 r6 _ _ _ h6 "additionalProperties"
        (by decide),
      ← updateFieldM_ok_lookup_ne r6 r7 _ _ _ h7 "additionalProperties"
        (by decide)] at hv
    exact updateFieldM_ok_hit r7 r8 _ _ _ v h hv htr

theorem lookupField_mcpR2_ne (fields : JObj) (k : String)
    (hdel : openAPIFields.contains k = false) (hty : k ≠ "type") :
    lookupField (mcpR2 fields) k = lookupField fields.toList k := by
  by_cases hn : lookupField fields.toList "nullable" = some (.bool true)
  · cases ht : lookupField (deleteFields fields.toList openAPIFields)
        "type" with
    | none =>
      simp only [mcpR2, if_pos hn, ht]
      exact lookupField_deleteFields_not_mem _ _ _ hdel
    | some t =>
      by_cases htr : truthy t = true
      · simp only [mcpR2, if_pos hn, ht, if_pos htr]
        rw [lookupField_setField_ne _ k _ hty]
        exact lookupField_deleteFields_not_mem _ _ _ hdel
      · simp only [mcpR2, if_pos hn, ht, if_neg htr]
        exact lookupField_deleteFields_not_mem _ _ _ hdel
  · simp only [mcpR2, if_neg hn]
    exact lookupField_deleteFields_not_mem _ _ _ hdel

theorem lookupField_mcpR2_nullable (fields : JObj) :
    lookupField (mcpR2 fields) "nullable" = none := by
  have hdel : lookupField (deleteFields fields.toList openAPIFields)
      "nullable" = none :=
    lookupField_deleteFields_mem _ _ _ (by decide)
  by_cases hn : lookupField fields.toList "nullable" = some (.bool true)
  · cases ht : lookupField (deleteFields fields.toList openAPIFields)
        "type" with
    | none =>
      simp only [mcpR2, if_pos hn, ht]
      exact hdel
    | some t =>
      by_cases htr : truthy t = true
      · simp only [mcpR2, if_pos hn, ht, if_pos htr]
        rw [lookupField_setField_ne _ "nullable" _ (by decide)]
        exact hdel
      · simp only [mcpR2, if_pos hn, ht, if_neg htr]
        exact hdel
  · simp only [mcpR2, if_neg hn]
    exact hdel

theorem lookupField_mcpR2_type_union (fields : JObj) (t0 : J)
    (hn : lookupField fields.toList "nullable" = some (.bool true))
    (ht : lookupField fields.toList "type" = some t0)
    (htr : truthy t0 = true) :
    lookupField (mcpR2 fields) "type" = some (typeWithNull t0) := by
  have ht1 : lookupField (deleteFields fields.toList openAPIFields)
      "type" = some t0 := by
    rw [lookupField_deleteFields_not_mem _ _ _ (by decide)]
    exact ht
  simp only [mcpR2, if_pos hn, ht1, if_pos htr]
  exact lookupField_setField_some _ _ _ t0 ht1

theorem toMCPF_obj_spec (fuel : Nat) (fields : JObj) (out : J)
    (hok : toMCPF (fuel + 1) (.obj fields) = .ok out) :
    ∃ r8 : List (String × J), out = J.objL r8 ∧
      mcpChain (fun x => toMCPF fuel x) (mcpR2 fields) = .ok r8 := by
  simp only [toMCPF] at hok
  cases hc : mcpChain (fun x => toMCPF fuel x) (mcpR2 fields) with
  | error e => rw [hc] at hok; cases hok
  | ok r8 =>
    rw [hc] at hok
    cases hok
    exact ⟨r8, rfl, rfl⟩

theorem mapValsM_congr (f g : J → Except RErr J) :
    ∀ l : List (String × J), (∀ kv ∈ l, f kv.2 = g kv.2) →
      mapValsM f l = mapValsM g l := by
  intro l
  induction l with
  | nil => intro _; rfl
  | cons kv rest ih =>
    intro h
    obtain ⟨k, v⟩ := kv
    have hv : f v = g v := h (k, v) (List.mem_cons_self _ _)
    simp only [mapValsM, hv,
      ih (fun kv2 hm => h kv2 (List.mem_cons_of_mem _ hm))]

theorem mapListM_congr (f g : J → Except RErr J) :
    ∀ l : List J, (∀ x ∈ l, f x = g x) → mapListM f l = mapListM g l := by
  intro l
  induction l with
  | nil => intro _; rfl
  | cons x rest ih =>
    intro h
    have hx : f x = g x := h x (List.mem_cons_self _ _)
    simp only [mapListM, hx,
      ih (fun y hm => h y (List.mem_cons_of_mem _ hm))]

theorem mcpProps_congr (f g : J → Except RErr J) (p : J)
    (h : ∀ pkvs (kv : String × J), p = .obj pkvs → kv ∈ pkvs.toList →
      f kv.2 = g kv.2)
    (h2 : ∀ xs (x : J), p = .arr xs → x ∈ xs.toList → f x = g x) :
    mcpProps f p = mcpProps g p := by
  cases p with
  | obj pkvs =>
    simp only [mcpProps]
    rw [mapValsM_congr f g pkvs.toList (fun kv hm => h pkvs kv rfl hm)]
  | arr xs =>
    simp only [mcpProps]
    rw [mapListM_congr f g xs.toList (fun x hm => h2 xs x rfl hm)]
  | null => rfl
  | bool b => rfl
  | num n => rfl
  | str s => rfl

theorem mcpComp_congr (f g : J → Except RErr J) (v : J)
    (h : ∀ xs (x : J), v = .arr xs → x ∈ xs.toList → f x = g x) :
    mcpComp f v = mcpComp g v := by
  cases v with
  | arr xs =>
    simp only [mcpComp]
    rw [mapListM_congr f g xs.toList (fun x hm => h xs x rfl hm)]
  | null => rfl
  | bool b => rfl
  | num n => rfl
  | str s => rfl
  | obj kvs => rfl

theorem updateFieldM_congr (kvs : List (String × J)) (k : String)
    (guard : J → Bool) (f g : J → Except RErr J)
    (h : ∀ v, lookupField kvs k = some v → guard v = true → f v = g v) :
    updateFieldM kvs k guard f = updateFieldM kvs k guard g := by
  cases hl : lookupField kvs k with
  | none => simp only [updateFieldM, hl]
  | some v =>
    simp only [updateFieldM, hl]
    by_cases hg : guard v = true
    · rw [if_pos hg, if_pos hg, h v hl hg]
    · rw [if_neg hg, if_neg hg]

theorem mcpChain_congr (f g : J → Except RErr J) (r2 : List (String × J))
    (hprops : ∀ p, lookupField r2 "properties" = some p → truthy p = true →
      mcpProps f p = mcpProps g p)
    (hitems : ∀ v, lookupField r2 "items" = some v → truthy v = true →
      f v = g v)
    (hcomp : ∀ k v, (k = "allOf" ∨ k = "anyOf" ∨ k = "oneOf") →
      lookupField r2 k = some v → truthy v = true → mcpComp f v = mcpComp g v)
    (haddl : ∀ v, lookupField r2 "additionalProperties" = some v →
      (truthy v && isObjOrArr v) = true → f v = g v) :
    mcpChain f r2 = mcpChain g r2 := by
  unfold mcpChain
  rw [updateFieldM_congr r2 "properties" truthy (mcpProps f) (mcpProps g)
    (fun v hv hg => hprops v hv hg)]
  cases h3 : updateFieldM r2 "properties" truthy (mcpProps g) with
  | error e => rfl
  | ok r3 =>
  dsimp only
  have l3 : ∀ k2, k2 ≠ "properties" →
      lookupField r3 k2 = lookupField r2 k2 :=
    fun k2 hne => updateFieldM_ok_lookup_ne r2 r3 _ _ _ h3 k2 hne
  rw [updateFieldM_congr r3 "items" truthy f g
    (fun v hv hg => hitems v (by rw [← l3 "items" (by decide)]; exact hv) hg)]
  cases h4 : updateFieldM r3 "items" truthy g with
  | error e => rfl
  | ok r4 =>
  dsimp only
  have l4 : ∀ k2, k2 ≠ "properties" → k2 ≠ "items" →
      lookupField r4 k2 = lookupField r2 k2 := fun k2 hne hni => by
    rw [updateFieldM_ok_lookup_ne r3 r4 _ _ _ h4 k2 hni]; exact l3 k2 hne
  rw [updateFieldM_congr r4 "allOf" truthy (mcpComp f) (mcpComp g)
    (fun v hv hg => hcomp "allOf" v (Or.inl rfl)
      (by rw [← l4 "allOf" (by decide) (by decide)]; exact hv) hg)]
  cases h5 : updateFieldM r4 "allOf" truthy (mcpComp g) with
  | error e => rfl
  | ok r5 =>
  dsimp only
  have l5 : ∀ k2, k2 ≠ "properties" → k2 ≠ "items" → k2 ≠ "allOf" →
      lookupField r5 k2 = lookupField r2 k2 := fun k2 hne hni hna => by
    rw [updateFieldM_ok_lookup_ne r4 r5 _ _ _ h5 k2 hna]; exact l4 k2 hne hni
  rw [updateFieldM_congr r5 "anyOf" truthy (mcpComp f) (mcpComp g)
    (fun v hv hg => hcomp "anyOf" v (Or.inr (Or.inl rfl))
      (by rw [← l5 "anyOf" (by decide) (by decide) (by decide)]; exact hv) hg)]
  cases h6 : updateFieldM r5 "anyOf" truthy (mcpComp g) with
  | error e => rfl
  | ok r6 =>
  dsimp only
  have l6 : ∀ k2, k2 ≠ "properties" → k2 ≠ "items" → k2 ≠ "allOf" →
      k2 ≠ "anyOf" → lookupField r6 k2 = lookupField r2 k2 :=
    fun k2 hne hni hna hnb => by
      rw [updateFieldM_ok_lookup_ne r5 r6 _ _ _ h6 k2 hnb]
      exact l5 k2 hne hni hna
  rw [updateFieldM_congr r6 "oneOf" truthy (mcpComp f) (mcpComp g)
    (fun v hv hg => hcomp "oneOf" v (Or.inr (Or.inr rfl))
      (by rw [← l6 "oneOf" (by decide) (by decide) (by decide) (by decide)]
          exact hv) hg)]
  cases h7 : updateFieldM r6 "oneOf" truthy (mcpComp g) with
  | error e => rfl
  | ok r7 =>
  dsimp only
  have l7 : ∀ k2, k2 ≠ "properties" → k2 ≠ "items" → k2 ≠ "allOf" →
      k2 ≠ "anyOf" → k2 ≠ "oneOf" →
      lookupField r7 k2 = lookupField r2 k2 :=
    fun k2 hne hni hna hnb hnc => by
      rw [updateFieldM_ok_lookup_ne r6 r7 _ _ _ h7 k2 hnc]
      exact l6 k2 hne hni hna hnb
  exact updateFieldM_congr r7 "additionalProperties" _ f g
    (fun v hv hg => haddl v
      (by rw [← l7 "additionalProperties" (by decide) (by decide) (by decide)
          (by decide) (by decide)]
          exact hv) hg)

/-! ### OpenAPIToolGenerator.generateSearchTools (generator.ts lines 25-150)

The search-tool generation pipeline: iterate spec.paths, keep paths ending
in "/search", require a truthy POST operation, an entity type extracted by
the regex pattern of extractEntityType, and an input schema extracted via
requestBody.content['application/json'].schema, resolved and converted.
`GeneratedToolInfo` is projected to the fields the claim speaks about
(metadata.name, entityType, inputSchema); description, operationId and the
bound api-call closure are independent of this claim. -/

/-- `path.endsWith(suffix)`. -/
def endsWithStr (s suffix : String) : Bool :=
  s.data.reverse.take suffix.data.length == suffix.data.reverse

/-- `extractEntityType(path)`: the anchored regex match
`path.match(/^\/([^\/]+)\/search$/)`, i.e. a leading slash, a nonempty
run of non-slash characters (the greedy group, which being anchored has a
unique match) and the literal tail "/search". -/
def extractEntityType (path : String) : Option String :=
  match path.data with
  | c :: rest =>
    if c = '/' then
      if (rest.takeWhile (fun c2 => c2 != '/')).isEmpty then none
      else if rest.dropWhile (fun c2 => c2 != '/') = "/search".data then
        some (String.mk (rest.takeWhile (fun c2 => c2 != '/')))
      else none
    else none
  | [] => none

/-- `generateToolName(entityType)`. -/
def generateToolName (entityType : String) : String :=
  "search" ++ String.mk (capFirst entityType.data)

/-- The literal returned by extractInputSchema:
`{type: 'object', ...mcpSchema, $schema: 'http://...draft-07/schema#'}`. -/
def wrapInputSchema (mcp : J) : J :=
  J.objL (mergeSpread
    (mergeSpread [("type", J.str "object")] (spreadFields mcp))
    [("$schema", J.str "http://json-schema.org/draft-07/schema#")])

/-- `extractInputSchema(operation, spec)` (the spec argument of the source
is unused there; resolution reads the resolver's stored spec, which this
embedding passes explicitly). -/
def extractInputSchema (spec operation : J) : Except RErr (Option J) :=
  match jsGet operation "requestBody" with
  | none => .ok none
  | some rb =>
    if truthy rb then
      match jsGet rb "content" with
      | none => .ok none
      | some content =>
        if truthy content then
          match jsGet content "application/json" with
          | none => .ok none
          | some mt =>
            if truthy mt then
              match jsGet mt "schema" with
              | none => .ok none
              | some schema =>
                if truthy schema then
                  match resolveSchema spec schema with
                  | .error e => .error e
                  | .ok (resolved, _) =>
                    match toMCPSchema resolved with
                    | .error e => .error e
                    | .ok mcp => .ok (some (wrapInputSchema mcp))
                else .ok none
            else .ok none
        else .ok none
    else .ok none

/-- The generated tool data C4 speaks about. -/
structure SearchToolInfo where
  name : String
  entityType : String
  inputSchema : J
deriving Repr, DecidableEq

/-- `generateSearchTool(path, pathItem, spec)`: null when POST is missing
or falsy, the entity type does not extract, or no input schema is found. -/
def generateSearchTool (spec : J) (path : String) (pathItem : J) :
    Except RErr (Option SearchToolInfo) :=
  match jsGet pathItem "post" with
  | none => .ok none
  | some op =>
    if truthy op then
      match extractEntityType path with
      | none => .ok none
      | some entity =>
        match extractInputSchema spec op with
        | .error e => .error e
        | .ok none => .ok none
        | .ok (some schema) =>
          .ok (some ⟨generateToolName entity, entity, schema⟩)
    else .ok none

/-- The loop body of generateSearchTools over the entries of spec.paths. -/
def genSearchFold (spec : J) : List (String × J) →
    Except RErr (List SearchToolInfo)
  | [] => .ok []
  | (path, pathItem) :: rest =>
    if endsWithStr path "/search" then
      match generateSearchTool spec path pathItem with
      | .error e => .error e
      | .ok none => genSearchFold spec rest
      | .ok (some t) =>
        match genSearchFold spec rest with
        | .error e => .error e
        | .ok ts => .ok (t :: ts)
    else genSearchFold spec rest

/-- `generateSearchTools()` over `Object.entries(spec.paths || {})`. -/
def generateSearchTools (spec : J) : Except RErr (List SearchToolInfo) :=
  genSearchFold spec (spreadFields
    (match jsGet spec "paths" with
     | some p => if truthy p then p else J.objL []
     | none => J.objL []))

/-! ### OpenAPIToolGenerator.createApiCallFunction (generator.ts lines 364-431)

The returned closure (modulo the axios transport itself): clone the input
with spread, scan the path for `\x7b([^\x7d]+)\x7d` placeholders
(matchAll, so duplicates are kept in order), then for each placeholder
name require the field (`in` modelled as own-key membership, the stated
prototype-chain assumption), substitute the percent-encoded string
coercion of its value for the FIRST occurrence of the placeholder text
(`String.prototype.replace` with a string pattern), delete the field, or
throw `Missing required path parameter` when absent; finally route the
remaining fields to query params for get/delete and to the body otherwise,
omitting the empty object. -/

/-- Opening brace (written by code point to keep brace characters out of
string literals). -/
def lbrace : Char := Char.ofNat 123

/-- Closing brace. -/
def rbrace : Char := Char.ofNat 125

/-- Fuel-indexed matchAll scan for placeholder names: at a brace, the
greedy nonempty run of non-closing-brace characters followed by the
closing brace is a match (scanning resumes after it); otherwise the scan
advances one character. -/
def extractPlaceholdersF : Nat → List Char → List String
  | 0, _ => []
  | _ + 1, [] => []
  | fuel + 1, c :: rest =>
    if c = lbrace then
      match rest.dropWhile (fun c2 => c2 != rbrace) with
      | _ :: rest2 =>
        if (rest.takeWhile (fun c2 => c2 != rbrace)).isEmpty then
          extractPlaceholdersF fuel rest
        else
          String.mk (rest.takeWhile (fun c2 => c2 != rbrace)) ::
            extractPlaceholdersF fuel rest2
      | [] => extractPlaceholdersF fuel rest
    else extractPlaceholdersF fuel rest

/-- The placeholder names of a path, in order, duplicates kept. -/
def pathPlaceholders (path : String) : List String :=
  extractPlaceholdersF path.data.length path.data

/-- Unreserved characters of encodeURIComponent:
`A-Z a-z 0-9 - _ . ! ~ * ( )` and the apostrophe. -/
def isUnreserved (c : Char) : Bool :=
  let n := c.toNat
  (65 ≤ n && n ≤ 90) || (97 ≤ n && n ≤ 122) || (48 ≤ n && n ≤ 57) ||
    (n = 45 || n = 95 || n = 46 || n = 33 || n = 126 || n = 42 ||
     n = 39 || n = 40 || n = 41)

/-- Uppercase hexadecimal digit. -/
def hexDigit (n : Nat) : Char :=
  if n < 10 then Char.ofNat (48 + n) else Char.ofNat (55 + n)

/-- UTF-8 bytes of a code point. -/
def utf8Bytes (n : Nat) : List Nat :=
  if n < 128 then [n]
  else if n < 2048 then [192 + n / 64, 128 + n % 64]
  else if n < 65536 then
    [224 + n / 4096, 128 + (n / 64) % 64, 128 + n % 64]
  else
    [240 + n / 262144, 128 + (n / 4096) % 64, 128 + (n / 64) % 64,
     128 + n % 64]

/-- encodeURIComponent on one character. -/
def encodeChar (c : Char) : List Char :=
  if isUnreserved c then [c]
  else List.flatten ((utf8Bytes c.toNat).map
    (fun b => ['%', hexDigit (b / 16), hexDigit (b % 16)]))

/-- `encodeURIComponent(s)`. -/
def encodeURIComponent (s : String) : String :=
  String.mk (List.flatten (s.data.map encodeChar))

/-- Fuel-indexed first-occurrence string replacement
(`String.prototype.replace` with a string pattern). -/
def replaceFirstF : Nat → List Char → List Char → List Char → List Char
  | 0, s, _, _ => s
  | fuel + 1, s, pat, rep =>
    match s with
    | [] => []
    | c :: rest =>
      if pat.isPrefixOf s then rep ++ s.drop pat.length
      else c :: replaceFirstF fuel rest pat rep

/-- Replace the first occurrence of `pat` in `s` by `rep` (no change when
absent). -/
def replaceFirst (s pat rep : List Char) : List Char :=
  replaceFirstF s.length s pat rep

/-- The placeholder text `\x7bname\x7d`. -/
def phPat (p : String) : List Char := lbrace :: p.data ++ [rbrace]

/-- The substitution loop over the scanned placeholder names. -/
def substLoop : List String → List Char → List (String × J) →
    Except String (List Char × List (String × J))
  | [], path, kvs => .ok (path, kvs)
  | p :: rest, path, kvs =>
    match lookupField kvs p with
    | some v =>
      substLoop rest
        (replaceFirst path (phPat p) (encodeURIComponent (jsToString v)).data)
        (removeField kvs p)
    | none => .error ("Missing required path parameter: " ++ p)

/-- The axios request configuration assembled by the closure. -/
structure ApiRequest where
  method : String
  url : String
  params : Option (List (String × J))
  body : Option (List (String × J))
deriving Repr, DecidableEq

/-- The closure returned by createApiCallFunction, up to the point where
the HTTP request would be issued: either the assembled request or the
missing-parameter error message it throws. -/
def apiCallRequest (path method : String) (input : J) :
    Except String ApiRequest :=
  let requestData := spreadFields input
  match substLoop (pathPlaceholders path) path.data requestData with
  | .error e => .error e
  | .ok (processed, remaining) =>
    let ml := String.mk (method.data.map Char.toLower)
    if ml = "get" ∨ ml = "delete" then
      .ok ⟨ml, String.mk processed,
        if remaining.isEmpty then none else some remaining, none⟩
    else
      .ok ⟨ml, String.mk processed, none,
        if remaining.isEmpty then none else some remaining⟩

/-- The effect of the loop on the url when every placeholder is
substituted: fold of first-occurrence replacements, each with the encoded
coercion of the ORIGINAL input field (what the loop reads when no
placeholder name repeats). -/
def substAll (kvs : List (String × J)) (path : List Char)
    (params : List String) : List Char :=
  params.foldl (fun acc p =>
    match lookupField kvs p with
    | some v =>
      replaceFirst acc (phPat p) (encodeURIComponent (jsToString v)).data
    | none => acc) path

/-! ### DynamicTool.execute (tools/dynamic.ts, formatter variant)

Validates required input fields, calls the bound API function, and shapes
the response through the external ResponseFormatter (passed in as opaque
functions, since utils/formatters.ts is an external collaborator).  Thrown
errors never escape `execute`: the catch block turns them into a text
ToolResult, so the function is total here.  The returned `Bool` instruments
whether `apiCallFn` was invoked. -/

/-- A thrown JS value as observed by the catch block: whether it is an
`Error` instance, its message, and its optional `response` field (used by
the `error?.response?.data?.errors` check). -/
structure Thrown where
  isError : Bool
  message : String
  response : Option J

/-- Outcome of the bound `apiCallFn(input, client)`. -/
inductive ApiOutcome where
  | resp (r : J)
  | thrown (e : Thrown)

/-- `isTakaroError`: `error?.response?.data?.errors !== undefined`. -/
def isTakaroErrorB (e : Thrown) : Bool :=
  match e.response with
  | some r =>
    match jsGet r "data" with
    | some d => (jsGet d "errors").isSome
    | none => false
  | none => false

/-- A `{ content: [{ type: 'text', text }] }` tool result. -/
def textToolResult (text : String) : J :=
  J.objL [("content", J.arrL [J.objL [("type", .str "text"), ("text", .str text)]])]

/-- The `in`-operator check of the validation loop; on a non-object,
non-array input the JS `in` operator throws a TypeError. -/
def jsInCheck (field : J) (input : J) : Except String Bool :=
  match input with
  | .obj kvs => .ok (lookupField kvs.toList (jsToString field)).isSome
  | .arr xs =>
    .ok (match jsIndex (jsToString field) with
      | some i => decide (i < xs.toList.length)
      | none => false)
  | _ => .error "Cannot use in operator on a non-object"

/-- The `for (const requiredField of required)` loop: the first missing
field (displayed with JS string coercion) or a TypeError from `in`. -/
def firstMissingRequired : List J → J → Except String (Option String)
  | [], _ => .ok none
  | x :: rest, input =>
    match jsInCheck x input with
    | .error e => .error e
    | .ok true => firstMissingRequired rest input
    | .ok false => .ok (some (jsToString x))

/-- `this.metadata.name.toLowerCase().startsWith('search')`. -/
def isSearchOperationName (name : String) : Bool :=
  "search".data.isPrefixOf (name.data.map Char.toLower)

/-- `x || d` fallback on an optional JS value. -/
def jsOrDefault (x : Option J) (d : J) : J :=
  match x with
  | some v => if truthy v then v else d
  | none => d

/-- Optional chaining `v?.k`. -/
def jsChain (x : Option J) (key : String) : Option J :=
  match x with
  | some v => jsGet v key
  | none => none

/-- `DynamicTool.execute(input, context)`, formatter variant.
`fmtPaginated` / `fmtSingle` / `fmtError` are the external
ResponseFormatter's methods.  The second component records whether the
bound API function was invoked. -/
def dynExecute (name entityType : String) (inputSchema : J) (input : J)
    (apiCall : J → ApiOutcome)
    (fmtPaginated : J → String → J → J)
    (fmtSingle : Option J → String → J)
    (fmtError : Thrown → J) : J × Bool :=
  let validation : Except String (Option String) :=
    match jsGet inputSchema "required" with
    | some req =>
      if truthy req then
        match req with
        | .arr reqs => firstMissingRequired reqs.toList input
        | _ => .error "required is not iterable"
      else .ok none
    | none => .ok none
  match validation with
  | .error msg =>
    (textToolResult ("Failed to execute " ++ name ++ ": " ++ msg), false)
  | .ok (some missing) =>
    (textToolResult ("Failed to execute " ++ name ++ ": Missing required field: "
      ++ missing), false)
  | .ok none =>
    match apiCall input with
    | .thrown e =>
      if isTakaroErrorB e then (fmtError e, true)
      else (textToolResult ("Failed to execute " ++ name ++ ": " ++
        (if e.isError then e.message else "Unknown error")), true)
    | .resp r =>
      if isSearchOperationName name then
        let respObj := J.objL
          [("data", jsOrDefault (jsChain (jsGet r "data") "data") (J.arrL [])),
           ("meta", jsOrDefault (jsChain (jsGet r "data") "meta") (J.objL []))]
        (fmtPaginated respObj entityType input, true)
      else
        let entity :=
          match jsChain (jsGet r "data") "data" with
          | some v => if truthy v then some v else jsGet r "data"
          | none => jsGet r "data"
        (fmtSingle entity entityType, true)

/-! ### MCPHandler.handleToolCall (mcp-handler.ts)

The `tools/call` branch of the protocol dispatcher: session gating, tool
lookup, per-call context construction (`await getClient()`, whose outcome is
the `clientOutcome` parameter) and tool execution.  The returned `Bool`
instruments whether `tool.execute` was invoked. -/

/-- JSON-RPC request ids (`string | number | null`), echoed unchanged. -/
inductive ReqId where
  | str (s : String)
  | num (n : Int)
  | null
deriving Repr, DecidableEq

structure MCPError where
  code : Int
  message : String
  data : Option String
deriving Repr, DecidableEq

inductive MCPPayload where
  | result (r : J)
  | err (e : MCPError)
deriving Repr, DecidableEq

structure MCPResponse where
  payload : MCPPayload
  id : ReqId
deriving Repr, DecidableEq

/-- Outcome of a `tool.execute` call: a result, or a thrown value
(`isError` = whether it is an `Error` instance, with its message). -/
inductive ExecOutcome where
  | success (r : J)
  | thrown (isError : Bool) (message : String)

/-- A registered tool's behaviour: arguments and session id to outcome. -/
def ToolBeh := Option J → String → ExecOutcome

/-- `ToolRegistry.get` (a `Map` lookup by name). -/
def lookupTool : List (String × ToolBeh) → String → Option ToolBeh
  | [], _ => none
  | (k, t) :: rest, key => if k = key then some t else lookupTool rest key

/-- The dispatcher's catch-block classification: an `Error` whose message
includes `'Invalid parameters'` becomes invalid-params (-32602), anything
else the generic internal failure (-32603) without internal detail. -/
def classifyExecError (isError : Bool) (msg : String) : MCPError :=
  if isError ∧ containsSub msg.data "Invalid parameters".data then
    ⟨-32602, "Invalid parameters", some msg⟩
  else
    ⟨-32603, "Failed to execute tool", some "An error occurred during tool execution"⟩

/-- `MCPHandler.handleToolCall(params, sessionId, requestId)`.
`clientOutcome` stands for the externally-supplied `await getClient()`
(`.error` = the client constructor threw, caught by the same catch block). -/
def handleToolCall (registry : List (String × ToolBeh))
    (store : List (String × Nat)) (params : Option J)
    (sessionId : Option String) (requestId : ReqId)
    (clientOutcome : Except (Bool × String) Unit) :
    MCPResponse × Bool :=
  let pobj := match params with
    | some p => if truthy p then p else J.objL []
    | none => J.objL []
  let name : Option J := match pobj with
    | .obj kvs => lookupField kvs.toList "name"
    | _ => none
  let args : Option J := match pobj with
    | .obj kvs => lookupField kvs.toList "arguments"
    | _ => none
  match sessionId with
  | none =>
    (⟨.err ⟨-32602, "Session ID required for tool execution", none⟩, requestId⟩, false)
  | some sid =>
    if sid = "" then
      (⟨.err ⟨-32602, "Session ID required for tool execution", none⟩, requestId⟩, false)
    else if ¬ sessHas store sid then
      (⟨.err ⟨-32602, "Invalid or expired session", none⟩, requestId⟩, false)
    else
      let toolOpt := match name with
        | some (.str n) => lookupTool registry n
        | _ => none
      match toolOpt with
      | none =>
        (⟨.err ⟨-32601,
          "Unknown tool: " ++ (match name with
            | none => "undefined"
            | some v => jsToString v), none⟩, requestId⟩, false)
      | some beh =>
        match clientOutcome with
        | .error ie => (⟨.err (classifyExecError ie.1 ie.2), requestId⟩, false)
        | .ok _ =>
          match beh args sid with
          | .success r => (⟨.result r, requestId⟩, true)
          | .thrown isErr msg => (⟨.err (classifyExecError isErr msg), requestId⟩, true)

end MCP

namespace MCP

/-! Sanity checks that the embedding computes. -/

example : splitSlash "components/schemas/Node".data =
    ["components".data, "schemas".data, "Node".data] := by decide

example : decodeSeg "a~1b~0c" = "a/b~c" := by decide

/-- A tiny spec: `components.schemas.A = { type: "string" }`. -/
def specA : J :=
  J.objL [("components", J.objL [("schemas", J.objL
    [("A", J.objL [("type", .str "string")])])])]

example :
    resolveSchema specA (J.objL [("$ref", .str "#/components/schemas/A")]) =
      .ok (J.objL [("type", .str "string")], ["#/components/schemas/A"]) := rfl

/-! ### Claim C7: operationIdToMethod -/

theorem splitDot_ne_nil (cs : List Char) : splitDot cs ≠ [] := by
  rw [splitDot.eq_def]
  split
  · simp
  · simp
  · split <;> simp

theorem foldl_append_capFirst (l : List (List Char)) :
    ∀ acc : List Char,
      l.foldl (fun a p => a ++ capFirst p) acc = acc ++ (l.map capFirst).flatten := by
  induction l with
  | nil => intro acc; simp
  | cons p rest ih => intro acc; simp [ih]

/-- C7, counterexample: on `"ModuleController.search"` the implemented
mapping yields `"moduleControllerSearch"` — it does not strip the trailing
`Controller` suffix the claim (and spec §4.2) prescribes, whose mapping
would yield `"moduleSearch"`. -/
theorem operationIdToMethod_controller_not_stripped :
    operationIdToMethod "ModuleController.search" = "moduleControllerSearch" ∧
    specOperationIdToMethod "ModuleController.search" = "moduleSearch" ∧
    operationIdToMethod "ModuleController.search" ≠
      specOperationIdToMethod "ModuleController.search" := by
  refine ⟨by decide, by decide, by decide⟩

/-- C7, amended: for every non-empty operation identifier, the mapping
splits on `.`, lower-cases the first segment's leading character (without
stripping any `Controller` suffix) and appends each subsequent segment with
its leading character capitalized.  The mapping is a plain function of the
identifier (purity is intrinsic to the embedding). -/
theorem operationIdToMethod_characterization (oid : String) (h : oid ≠ "") :
    ∃ p0 rest, splitDot oid.data = p0 :: rest ∧
      operationIdToMethod oid = String.mk (lowerFirst p0 ++ (rest.map capFirst).flatten) := by
  obtain ⟨p0, rest, hsplit⟩ : ∃ p0 rest, splitDot oid.data = p0 :: rest := by
    cases hs : splitDot oid.data with
    | nil => exact absurd hs (splitDot_ne_nil _)
    | cons a b => exact ⟨a, b, rfl⟩
  refine ⟨p0, rest, hsplit, ?_⟩
  unfold operationIdToMethod
  rw [if_neg h, hsplit]
  simp [foldl_append_capFirst]

/-- C7 witness: the characterization applied to a concrete identifier. -/
theorem operationIdToMethod_characterization_witness :
    ∃ p0 rest, splitDot ("ModuleController.search" : String).data = p0 :: rest ∧
      operationIdToMethod "ModuleController.search" =
        String.mk (lowerFirst p0 ++ (rest.map capFirst).flatten) :=
  operationIdToMethod_characterization "ModuleController.search" (by decide)

/-! ### Claim C10: SessionManager.getOrCreate -/

theorem sessHas_append_self (store : List (String × Nat)) (k : String) (t : Nat) :
    sessHas (store ++ [(k, t)]) k = true := by
  simp [sessHas, List.any_append]

/-- C10: for every supplied session id — absent, unknown, or known — the id
returned by `getOrCreate` is in the store afterward; the supplied id comes
back with `isNew = false` exactly when it was already present; and an
absent/unknown supplied id silently leads to a fresh session (the unknown
id itself is never inserted).  Hypotheses: `randomUUID()` freshness and the
store invariant that only non-empty UUIDs are ever inserted. -/
theorem getOrCreate_spec (store : List (String × Nat)) (supplied : Option String)
    (fresh : String) (now : Nat)
    (hfresh : sessHas store fresh = false)
    (hempty : sessHas store "" = false) :
    (sessHas (getOrCreate store supplied fresh now).2
        (getOrCreate store supplied fresh now).1.1 = true) ∧
    (((getOrCreate store supplied fresh now).1.2 = false ∧
        supplied = some (getOrCreate store supplied fresh now).1.1) ↔
      ∃ sid, supplied = some sid ∧ sessHas store sid = true) ∧
    (∀ sid, supplied = some sid → sessHas store sid = false →
      (getOrCreate store supplied fresh now).1.1 = fresh ∧
      (getOrCreate store supplied fresh now).1.2 = true ∧
      (getOrCreate store supplied fresh now).2 = store ++ [(fresh, now)]) ∧
    (supplied = none →
      (getOrCreate store supplied fresh now).1.1 = fresh ∧
      (getOrCreate store supplied fresh now).1.2 = true ∧
      (getOrCreate store supplied fresh now).2 = store ++ [(fresh, now)]) ∧
    ((getOrCreate store supplied fresh now).1.2 = true →
      sessHas store (getOrCreate store supplied fresh now).1.1 = false) := by
  cases supplied with
  | none =>
    refine ⟨?_, ?_, ?_, ?_, ?_⟩
    · simpa [getOrCreate, sessCreate] using sessHas_append_self store fresh now
    · simp [getOrCreate, sessCreate]
    · intro sid h; cases h
    · intro _; simp [getOrCreate, sessCreate]
    · intro _; simpa [getOrCreate, sessCreate] using hfresh
  | some sid =>
    by_cases hguard : sid ≠ "" ∧ sessHas store sid
    · refine ⟨?_, ?_, ?_, ?_, ?_⟩
      · simp [getOrCreate, hguard, hguard.2]
      · simp only [getOrCreate, if_pos hguard]
        constructor
        · intro _; exact ⟨sid, rfl, hguard.2⟩
        · intro _; simp
      · intro sid2 h hmiss
        rw [Option.some_inj] at h
        subst h
        exact absurd hguard.2 (by simp [hmiss])
      · intro h; cases h
      · intro hnew
        rw [show (getOrCreate store (some sid) fresh now).1.2 = false by
          simp [getOrCreate, hguard]] at hnew
        cases hnew
    · refine ⟨?_, ?_, ?_, ?_, ?_⟩
      · simpa [getOrCreate, sessCreate, hguard] using sessHas_append_self store fresh now
      · simp only [getOrCreate, if_neg hguard, sessCreate]
        constructor
        · intro ⟨h1, _⟩; cases h1
        · rintro ⟨sid2, h, hhas⟩
          rw [Option.some_inj] at h
          subst h
          exfalso
          rcases not_and_or.mp hguard with h | h
          · have h2 : sid = "" := not_not.mp h
            rw [h2] at hhas
            simp [hempty] at hhas
          · simp [hhas] at h
      · intro sid2 h _
        rw [Option.some_inj] at h
        subst h
        simp [getOrCreate, hguard, sessCreate]
      · intro h; cases h
      · intro _; simpa [getOrCreate, hguard, sessCreate] using hfresh

/-- C10 witness: an unknown supplied id at a concrete store. -/
theorem getOrCreate_spec_witness :
    (sessHas (getOrCreate [("aaa", 1)] (some "bbb") "ccc" 2).2
        (getOrCreate [("aaa", 1)] (some "bbb") "ccc" 2).1.1 = true) ∧
    (((getOrCreate [("aaa", 1)] (some "bbb") "ccc" 2).1.2 = false ∧
        some "bbb" = some (getOrCreate [("aaa", 1)] (some "bbb") "ccc" 2).1.1) ↔
      ∃ sid, (some "bbb" : Option String) = some sid ∧
        sessHas [("aaa", 1)] sid = true) ∧
    (∀ sid, (some "bbb" : Option String) = some sid →
      sessHas [("aaa", 1)] sid = false →
      (getOrCreate [("aaa", 1)] (some "bbb") "ccc" 2).1.1 = "ccc" ∧
      (getOrCreate [("aaa", 1)] (some "bbb") "ccc" 2).1.2 = true ∧
      (getOrCreate [("aaa", 1)] (some "bbb") "ccc" 2).2 = [("aaa", 1)] ++ [("ccc", 2)]) ∧
    ((some "bbb" : Option String) = none →
      (getOrCreate [("aaa", 1)] (some "bbb") "ccc" 2).1.1 = "ccc" ∧
      (getOrCreate [("aaa", 1)] (some "bbb") "ccc" 2).1.2 = true ∧
      (getOrCreate [("aaa", 1)] (some "bbb") "ccc" 2).2 = [("aaa", 1)] ++ [("ccc", 2)]) ∧
    ((getOrCreate [("aaa", 1)] (some "bbb") "ccc" 2).1.2 = true →
      sessHas [("aaa", 1)] (getOrCreate [("aaa", 1)] (some "bbb") "ccc" 2).1.1 = false) :=
  getOrCreate_spec [("aaa", 1)] (some "bbb") "ccc" 2 (by decide) (by decide)

/-! ### Claim C2: tools/call dispatch -/

/-- C2: for every `tools/call` request: an absent session id yields error
-32602 without executing; a present-but-unknown session id yields -32602
without executing; a valid session with an unregistered tool name yields
-32601 whose message includes the requested name, without executing; and
the tool's `execute` runs exactly when the session is valid (non-empty and
in the store), the named tool is registered, and the authenticated client
is acquired.  Hypothesis: the store invariant that the empty string is
never a session key. -/
theorem handleToolCall_spec (registry : List (String × ToolBeh))
    (store : List (String × Nat)) (params : Option J) (requestId : ReqId)
    (clientOutcome : Except (Bool × String) Unit)
    (hwf : sessHas store "" = false) :
    ((handleToolCall registry store params none requestId clientOutcome).1.payload =
        .err ⟨-32602, "Session ID required for tool execution", none⟩ ∧
      (handleToolCall registry store params none requestId clientOutcome).2 = false) ∧
    (∀ sid, sessHas store sid = false →
      ∃ e, (handleToolCall registry store params (some sid) requestId
              clientOutcome).1.payload = .err e ∧ e.code = -32602 ∧
        (handleToolCall registry store params (some sid) requestId clientOutcome).2
          = false) ∧
    (∀ sid n kvs, sessHas store sid = true → params = some (.obj kvs) →
      lookupField kvs.toList "name" = some (.str n) → lookupTool registry n = none →
      ∃ e, (handleToolCall registry store params (some sid) requestId
              clientOutcome).1.payload = .err e ∧ e.code = -32601 ∧
        n.data <:+: e.message.data ∧
        (handleToolCall registry store params (some sid) requestId clientOutcome).2
          = false) ∧
    (∀ sid, (handleToolCall registry store params (some sid) requestId
        clientOutcome).2 = true ↔
      (sessHas store sid = true ∧ clientOutcome = .ok () ∧
        ∃ kvs n beh, params = some (.obj kvs) ∧
          lookupField kvs.toList "name" = some (.str n) ∧
          lookupTool registry n = some beh)) := by
  refine ⟨⟨rfl, rfl⟩, ?_, ?_, ?_⟩
  · intro sid hsid
    by_cases hz : sid = ""
    · subst hz
      exact ⟨_, rfl, rfl, rfl⟩
    · refine ⟨⟨-32602, "Invalid or expired session", none⟩, ?_, rfl, ?_⟩ <;>
        simp [handleToolCall, hz, hsid]
  · intro sid n kvs hsid hp hname htool
    have hz : sid ≠ "" := by
      intro h; rw [h] at hsid; rw [hwf] at hsid; cases hsid
    subst hp
    refine ⟨⟨-32601, "Unknown tool: " ++ jsToString (.str n), none⟩, ?_, rfl, ?_, ?_⟩
    · simp [handleToolCall, hz, hsid, hname, htool, truthy, J.objL, JObj.ofList, JObj.toList, lookupField]
    · refine ⟨"Unknown tool: ".data, [], ?_⟩
      have : jsToString (.str n) = n := by simp [jsToString, jsToStringF, sizeJ]
      rw [this]
      simp
    · simp [handleToolCall, hz, hsid, hname, htool, truthy, J.objL, JObj.ofList, JObj.toList, lookupField]
  · intro sid
    constructor
    · intro hex
      by_cases hz : sid = ""
      · subst hz; simp [handleToolCall] at hex
      · by_cases hsid : sessHas store sid
        swap
        · exfalso; revert hex; simp [handleToolCall, hz, hsid]
        · refine ⟨hsid, ?_, ?_⟩
          · cases clientOutcome with
            | ok u => cases u; rfl
            | error ie =>
              exfalso
              revert hex
              simp only [handleToolCall, if_neg hz, hsid, if_neg]
              cases params with
              | none => simp [J.objL, JObj.ofList, JObj.toList, lookupField]
              | some p =>
                cases p <;>
                  simp [truthy, J.objL, JObj.ofList, JObj.toList, lookupField] <;>
                  split <;> simp
          · cases params with
            | none =>
              exfalso; revert hex
              simp [handleToolCall, hz, hsid, J.objL, JObj.ofList, JObj.toList, lookupField]
            | some p =>
              cases p with
              | obj kvs =>
                cases hname : lookupField kvs.toList "name" with
                | none => exfalso; revert hex; simp [handleToolCall, hz, hsid, hname, truthy, J.objL, JObj.ofList, JObj.toList, lookupField]
                | some v =>
                  cases v with
                  | str n =>
                    cases htool : lookupTool registry n with
                    | none =>
                      exfalso; revert hex
                      simp [handleToolCall, hz, hsid, hname, htool, truthy, J.objL, JObj.ofList, JObj.toList, lookupField]
                    | some beh => exact ⟨kvs, n, beh, rfl, hname, htool⟩
                  | null => exfalso; revert hex; simp [handleToolCall, hz, hsid, hname, truthy, J.objL, JObj.ofList, JObj.toList, lookupField]
                  | bool b => exfalso; revert hex; simp [handleToolCall, hz, hsid, hname, truthy, J.objL, JObj.ofList, JObj.toList, lookupField]
                  | num m => exfalso; revert hex; simp [handleToolCall, hz, hsid, hname, truthy, J.objL, JObj.ofList, JObj.toList, lookupField]
                  | arr xs => exfalso; revert hex; simp [handleToolCall, hz, hsid, hname, truthy, J.objL, JObj.ofList, JObj.toList, lookupField]
                  | obj o => exfalso; revert hex; simp [handleToolCall, hz, hsid, hname, truthy, J.objL, JObj.ofList, JObj.toList, lookupField]
              | null => exfalso; revert hex; simp [handleToolCall, hz, hsid, truthy, J.objL, JObj.ofList, lookupField]
              | bool b =>
                exfalso; revert hex
                cases b <;> simp [handleToolCall, hz, hsid, truthy, J.objL, JObj.ofList, lookupField]
              | num m =>
                exfalso; revert hex
                by_cases hm : m = 0 <;>
                  simp [handleToolCall, hz, hsid, truthy, hm, J.objL, JObj.ofList, lookupField]
              | str s =>
                exfalso; revert hex
                by_cases hs : s = "" <;>
                  simp [handleToolCall, hz, hsid, truthy, hs, J.objL, JObj.ofList, lookupField]
              | arr xs => exfalso; revert hex; simp [handleToolCall, hz, hsid, truthy, J.objL, JObj.ofList, JObj.toList, lookupField]
    · rintro ⟨hsid, hcl, kvs, n, beh, hp, hname, htool⟩
      have hz : sid ≠ "" := by
        intro h; rw [h] at hsid; rw [hwf] at hsid; cases hsid
      subst hp hcl
      cases hbeh : beh (lookupField kvs.toList "arguments") sid <;>
        simp [handleToolCall, hz, hsid, hname, htool, truthy, hbeh, J.objL, JObj.ofList, JObj.toList, lookupField]

/-- A one-tool registry used by concrete dispatch examples. -/
def regW : List (String × ToolBeh) := [("searchModules", fun _ _ => .success .null)]

/-- A one-session store used by concrete dispatch examples. -/
def storeW : List (String × Nat) := [("s1", 0)]

/-- Concrete `tools/call` params used by dispatch examples. -/
def paramsW : Option J := some (J.objL [("name", .str "searchModules")])

/-- C2 witness: the dispatch characterization applied at a concrete
registry, store and request. -/
theorem handleToolCall_spec_witness :
    ((handleToolCall regW storeW paramsW none .null (.ok ())).1.payload =
        .err ⟨-32602, "Session ID required for tool execution", none⟩ ∧
      (handleToolCall regW storeW paramsW none .null (.ok ())).2 = false) ∧
    (∀ sid, sessHas storeW sid = false →
      ∃ e, (handleToolCall regW storeW paramsW (some sid) .null
              (.ok ())).1.payload = .err e ∧ e.code = -32602 ∧
        (handleToolCall regW storeW paramsW (some sid) .null (.ok ())).2 = false) ∧
    (∀ sid n kvs, sessHas storeW sid = true → paramsW = some (.obj kvs) →
      lookupField kvs.toList "name" = some (.str n) → lookupTool regW n = none →
      ∃ e, (handleToolCall regW storeW paramsW (some sid) .null
              (.ok ())).1.payload = .err e ∧ e.code = -32601 ∧
        n.data <:+: e.message.data ∧
        (handleToolCall regW storeW paramsW (some sid) .null (.ok ())).2 = false) ∧
    (∀ sid, (handleToolCall regW storeW paramsW (some sid) .null (.ok ())).2 = true ↔
      (sessHas storeW sid = true ∧
        (Except.ok () : Except (Bool × String) Unit) = .ok () ∧
        ∃ kvs n beh, paramsW = some (.obj kvs) ∧
          lookupField kvs.toList "name" = some (.str n) ∧
          lookupTool regW n = some beh)) :=
  handleToolCall_spec regW storeW paramsW .null (.ok ()) (by decide)

/-! ### Claim C9: DynamicTool input validation -/

theorem firstMissingRequired_finds (fields : JObj) (l : List J) :
    (∃ x ∈ l, lookupField fields.toList (jsToString x) = none) →
    ∃ m, firstMissingRequired l (.obj fields) = .ok (some m) ∧
      ∃ x ∈ l, jsToString x = m ∧ lookupField fields.toList m = none := by
  induction l with
  | nil => rintro ⟨x, hx, _⟩; cases hx
  | cons y rest ih =>
    intro h
    cases hlk : lookupField fields.toList (jsToString y) with
    | none =>
      refine ⟨jsToString y, ?_, y, List.mem_cons_self _ _, rfl, hlk⟩
      simp [firstMissingRequired, jsInCheck, hlk]
    | some v =>
      obtain ⟨x, hx, hmiss⟩ := h
      have hxr : x ∈ rest := by
        rcases List.mem_cons.mp hx with rfl | h2
        · simp [hmiss] at hlk
        · exact h2
      obtain ⟨m, hfm, x2, hx2, hjs, hlk2⟩ := ih ⟨x, hxr, hmiss⟩
      exact ⟨m, by simp [firstMissingRequired, jsInCheck, hlk, hfm], x2,
        List.mem_cons_of_mem _ hx2, hjs, hlk2⟩

theorem infix_middle (a b c : String) : b.data <:+: (a ++ b ++ c).data :=
  ⟨a.data, c.data, by simp [String.data_append]⟩

/-- C9: for every input object missing at least one field named in the
tool's input-schema `required` list, `DynamicTool.execute` returns (rather
than throwing to the protocol layer — the embedding is total and lands in
the catch-block branch) a text tool result naming the missing required
field, and the bound API-calling function is never invoked. -/
theorem dynExecute_missing_required (name entityType : String) (schema : J)
    (fields : JObj) (reqs : JList)
    (apiCall : J → ApiOutcome) (fmtPaginated : J → String → J → J)
    (fmtSingle : Option J → String → J) (fmtError : Thrown → J)
    (hreq : jsGet schema "required" = some (.arr reqs))
    (hmiss : ∃ x ∈ reqs.toList, lookupField fields.toList (jsToString x) = none) :
    ∃ m,
      (dynExecute name entityType schema (.obj fields) apiCall fmtPaginated
          fmtSingle fmtError).1 =
        textToolResult ("Failed to execute " ++ name ++
          ": Missing required field: " ++ m) ∧
      (∃ x ∈ reqs.toList, jsToString x = m ∧ lookupField fields.toList m = none) ∧
      ("Missing required field" : String).data <:+:
        ("Failed to execute " ++ name ++ ": Missing required field: " ++ m).data ∧
      (dynExecute name entityType schema (.obj fields) apiCall fmtPaginated
          fmtSingle fmtError).2 = false := by
  obtain ⟨m, hfm, hwit⟩ := firstMissingRequired_finds fields reqs.toList hmiss
  have hmsg : ("Failed to execute " ++ name ++ ": Missing required field: " ++ m)
      = ("Failed to execute " ++ name ++ ": ") ++ "Missing required field"
        ++ (": " ++ m) := by
    have h1 : ((": " : String) ++ "Missing required field" ++ ": ")
        = ": Missing required field: " := by decide
    rw [← h1]
    simp only [String.append_assoc]
  refine ⟨m, ?_, hwit, ?_, ?_⟩
  · simp [dynExecute, hreq, truthy, hfm]
  · rw [hmsg]
    exact infix_middle _ _ _
  · simp [dynExecute, hreq, truthy, hfm]

/-- Concrete input schema requiring the field `id`. -/
def schemaReqId : J := J.objL [("type", .str "object"),
  ("required", J.arrL [.str "id"])]

/-- C9 witness: the validation theorem at a concrete schema and an input
missing `id`. -/
theorem dynExecute_missing_required_witness :
    ∃ m,
      (dynExecute "searchModules" "modules" schemaReqId (.obj .nil)
          (fun _ => .resp .null) (fun _ _ _ => .null) (fun _ _ => .null)
          (fun _ => .null)).1 =
        textToolResult ("Failed to execute " ++ "searchModules" ++
          ": Missing required field: " ++ m) ∧
      (∃ x ∈ (JList.ofList [.str "id"]).toList, jsToString x = m ∧
        lookupField JObj.nil.toList m = none) ∧
      ("Missing required field" : String).data <:+:
        ("Failed to execute " ++ "searchModules" ++
          ": Missing required field: " ++ m).data ∧
      (dynExecute "searchModules" "modules" schemaReqId (.obj .nil)
          (fun _ => .resp .null) (fun _ _ _ => .null) (fun _ _ => .null)
          (fun _ => .null)).2 = false :=
  dynExecute_missing_required "searchModules" "modules" schemaReqId .nil
    (JList.ofList [.str "id"]) (fun _ => .resp .null) (fun _ _ _ => .null)
    (fun _ _ => .null) (fun _ => .null) (by decide)
    ⟨.str "id", by decide, by decide⟩

/-! ### Termination measure for the resolver

`allStrJ` over-approximates the set of pointer strings a resolution can ever
add to the visited set (every string value occurring in the tree); the
measure `schBound` combines it with structural size.  The master lemma
`resolveSchemaF_good` shows the fuel chosen by `resolveSchema` is never
exhausted — this is the termination argument for the source's recursion. -/

theorem sizeJ_pos : ∀ t : J, 1 ≤ sizeJ t
  | .null | .bool _ | .num _ | .str _ => le_refl 1
  | .arr _ => by simp [sizeJ]
  | .obj _ => by simp [sizeJ]

theorem sizeO_of_mem : ∀ (kvs : JObj) (k : String) (v : J),
    (k, v) ∈ kvs.toList → sizeJ v + 2 ≤ sizeO kvs
  | .nil, _, _, h => by cases h
  | .cons k2 v2 rest, k, v, h => by
    rcases List.mem_cons.mp h with heq | hmem
    · cases heq
      simp only [sizeO]
      omega
    · have := sizeO_of_mem rest k v hmem
      simp only [sizeO]
      omega

theorem sizeL_of_mem : ∀ (xs : JList) (x : J), x ∈ xs.toList → sizeJ x + 1 ≤ sizeL xs
  | .nil, _, h => by cases h
  | .cons y rest, x, h => by
    rcases List.mem_cons.mp h with heq | hmem
    · cases heq
      simp only [sizeL]
      omega
    · have := sizeL_of_mem rest x hmem
      simp only [sizeL]
      omega

mutual
def allStrJ : J → Finset String
  | .null | .bool _ | .num _ => ∅
  | .str s => {s}
  | .arr xs => allStrL xs
  | .obj kvs => allStrO kvs
def allStrL : JList → Finset String
  | .nil => ∅
  | .cons x xs => allStrJ x ∪ allStrL xs
def allStrO : JObj → Finset String
  | .nil => ∅
  | .cons _ v kvs => allStrJ v ∪ allStrO kvs
end

theorem allStrO_of_mem : ∀ (kvs : JObj) (k : String) (v : J),
    (k, v) ∈ kvs.toList → allStrJ v ⊆ allStrO kvs
  | .nil, _, _, h => by cases h
  | .cons k2 v2 rest, k, v, h => by
    rcases List.mem_cons.mp h with heq | hmem
    · cases heq
      simp only [allStrO]
      exact Finset.subset_union_left
    · exact (allStrO_of_mem rest k v hmem).trans
        (by simp only [allStrO]; exact Finset.subset_union_right)

theorem allStrL_of_mem : ∀ (xs : JList) (x : J), x ∈ xs.toList → allStrJ x ⊆ allStrL xs
  | .nil, _, h => by cases h
  | .cons y rest, x, h => by
    rcases List.mem_cons.mp h with heq | hmem
    · cases heq
      simp only [allStrL]
      exact Finset.subset_union_left
    · exact (allStrL_of_mem rest x hmem).trans
        (by simp only [allStrL]; exact Finset.subset_union_right)

theorem lookupField_mem : ∀ (l : List (String × J)) (key : String) (v : J),
    lookupField l key = some v → (key, v) ∈ l
  | [], _, _, h => by cases h
  | (k, w) :: rest, key, v, h => by
    by_cases hk : k = key
    · subst hk
      rw [lookupField, if_pos rfl] at h
      cases h
      exact List.mem_cons_self _ _
    · rw [lookupField, if_neg hk] at h
      exact List.mem_cons_of_mem _ (lookupField_mem rest key v h)

theorem mcpR2_mem (fields : JObj) (k : String) (v : J)
    (hdel : openAPIFields.contains k = false) (hty : k ≠ "type")
    (h : lookupField (mcpR2 fields) k = some v) :
    sizeJ v + 2 ≤ sizeO fields := by
  rw [lookupField_mcpR2_ne fields k hdel hty] at h
  exact sizeO_of_mem fields k v (lookupField_mem _ _ _ h)

theorem toMCPF_irrel : ∀ n : Nat, ∀ t : J, sizeJ t ≤ n →
    ∀ f1 f2 : Nat, sizeJ t ≤ f1 → sizeJ t ≤ f2 →
      toMCPF f1 t = toMCPF f2 t := by
  intro n
  induction n with
  | zero => intro t ht; exact absurd (le_trans (sizeJ_pos t) ht) (by decide)
  | succ n ih =>
    intro t ht f1 f2 hf1 hf2
    have h1p : 1 ≤ f1 := le_trans (sizeJ_pos t) hf1
    have h2p : 1 ≤ f2 := le_trans (sizeJ_pos t) hf2
    cases f1 with
    | zero => exact absurd h1p (by decide)
    | succ a =>
    cases f2 with
    | zero => exact absurd h2p (by decide)
    | succ b =>
    cases t with
    | null => rfl
    | bool bv => rfl
    | num nv => rfl
    | str sv => rfl
    | arr xs => rfl
    | obj fields =>
      have hOn : sizeO fields ≤ n := by
        have : sizeO fields + 1 ≤ n + 1 := ht
        omega
      have hOa : sizeO fields ≤ a := by
        have : sizeO fields + 1 ≤ a + 1 := hf1
        omega
      have hOb : sizeO fields ≤ b := by
        have : sizeO fields + 1 ≤ b + 1 := hf2
        omega
      have hchain : mcpChain (fun x => toMCPF a x) (mcpR2 fields) =
          mcpChain (fun x => toMCPF b x) (mcpR2 fields) := by
        apply mcpChain_congr
        · intro p hp _
          have hps := mcpR2_mem fields "properties" p (by decide) (by decide)
            hp
          apply mcpProps_congr
          · intro pkvs kv hpe hm
            subst hpe
            have hkv := sizeO_of_mem pkvs kv.1 kv.2 (by
              have : (kv.1, kv.2) = kv := rfl
              rw [this]
              exact hm)
            have hsz : sizeJ kv.2 ≤ n := by
              simp only [sizeJ] at hps
              omega
            exact ih kv.2 hsz a b (by simp only [sizeJ] at hps; omega)
              (by simp only [sizeJ] at hps; omega)
          · intro xs x hpe hm
            subst hpe
            have hx := sizeL_of_mem xs x hm
            have hsz : sizeJ x ≤ n := by
              simp only [sizeJ] at hps
              omega
            exact ih x hsz a b (by simp only [sizeJ] at hps; omega)
              (by simp only [sizeJ] at hps; omega)
        · intro v hv _
          have hvs := mcpR2_mem fields "items" v (by decide) (by decide) hv
          exact ih v (by omega) a b (by omega) (by omega)
        · intro k v hk hv _
          have hvs : sizeJ v + 2 ≤ sizeO fields := by
            rcases hk with hk | hk | hk <;> subst hk
            · exact mcpR2_mem fields "allOf" v (by decide) (by decide) hv
            · exact mcpR2_mem fields "anyOf" v (by decide) (by decide) hv
            · exact mcpR2_mem fields "oneOf" v (by decide) (by decide) hv
          apply mcpComp_congr
          intro xs x hve hm
          subst hve
          have hx := sizeL_of_mem xs x hm
          have hsz : sizeJ x ≤ n := by
            simp only [sizeJ] at hvs
            omega
          exact ih x hsz a b (by simp only [sizeJ] at hvs; omega)
            (by simp only [sizeJ] at hvs; omega)
        · intro v hv _
          have hvs := mcpR2_mem fields "additionalProperties" v (by decide)
            (by decide) hv
          exact ih v (by omega) a b (by omega) (by omega)
      simp only [toMCPF, hchain]

/-- toMCPSchema equals toMCPF at any sufficient fuel. -/
theorem toMCPSchema_eq_toMCPF (schema : J) (fuel : Nat)
    (h : sizeJ schema ≤ fuel) : toMCPSchema schema = toMCPF fuel schema :=
  toMCPF_irrel (sizeJ schema) schema le_rfl (sizeJ schema) fuel le_rfl h

theorem toMCPF_preserves_truthy (fuel : Nat) (v u : J)
    (h : toMCPF fuel v = .ok u) (ht : truthy v = true) : truthy u = true := by
  cases fuel with
  | zero => cases h
  | succ f =>
    cases v with
    | obj fields =>
      simp only [toMCPF] at h
      cases hc : mcpChain (fun x => toMCPF f x) (mcpR2 fields) with
      | error e => rw [hc] at h; cases h
      | ok r8 => rw [hc] at h; cases h; rfl
    | null => simp only [toMCPF] at h; cases h; exact ht
    | bool b => simp only [toMCPF] at h; cases h; exact ht
    | num n => simp only [toMCPF] at h; cases h; exact ht
    | str sv => simp only [toMCPF] at h; cases h; exact ht
    | arr xs => simp only [toMCPF] at h; cases h; rfl

theorem toMCPF_preserves_objOrArr (fuel : Nat) (v u : J)
    (h : toMCPF fuel v = .ok u) (ht : isObjOrArr v = true) :
    isObjOrArr u = true := by
  cases fuel with
  | zero => cases h
  | succ f =>
    cases v with
    | obj fields =>
      simp only [toMCPF] at h
      cases hc : mcpChain (fun x => toMCPF f x) (mcpR2 fields) with
      | error e => rw [hc] at h; cases h
      | ok r8 => rw [hc] at h; cases h; rfl
    | null => simp only [toMCPF] at h; cases h; exact ht
    | bool b => simp only [toMCPF] at h; cases h; exact ht
    | num n => simp only [toMCPF] at h; cases h; exact ht
    | str sv => simp only [toMCPF] at h; cases h; exact ht
    | arr xs => simp only [toMCPF] at h; cases h; rfl

/-- One step of the recursion channels of toMCPSchema: from an object node
to a schema the conversion recurses into (a property value, an indexed
properties element, a truthy `items`, an element of an `allOf` / `anyOf` /
`oneOf` array, or an object-valued `additionalProperties`). -/
inductive MChild : J → J → Prop where
  | propsObj (fields pkvs : JObj) (k : String) (u : J) :
      lookupField fields.toList "properties" = some (.obj pkvs) →
      (k, u) ∈ pkvs.toList → MChild (.obj fields) u
  | propsArr (fields : JObj) (xs : JList) (u : J) :
      lookupField fields.toList "properties" = some (.arr xs) →
      u ∈ xs.toList → MChild (.obj fields) u
  | items (fields : JObj) (u : J) :
      lookupField fields.toList "items" = some u → truthy u = true →
      MChild (.obj fields) u
  | comp (fields : JObj) (k : String) (xs : JList) (u : J) :
      (k = "allOf" ∨ k = "anyOf" ∨ k = "oneOf") →
      lookupField fields.toList k = some (.arr xs) →
      u ∈ xs.toList → MChild (.obj fields) u
  | addProps (fields : JObj) (u : J) :
      lookupField fields.toList "additionalProperties" = some u →
      (truthy u && isObjOrArr u) = true → MChild (.obj fields) u

theorem toMCP_step (s u out : J) (hc : MChild s u)
    (hok : toMCPSchema s = .ok out) :
    ∃ u2, toMCPSchema u = .ok u2 ∧ MChild out u2 := by
  cases hc with
  | propsObj fields pkvs k u hp hm =>
    simp only [toMCPSchema, sizeJ] at hok
    obtain ⟨r8, hout, hchain⟩ := toMCPF_obj_spec (sizeO fields) fields out hok
    obtain ⟨hpres, hprops, hitems, hcomp, haddl⟩ :=
      mcpChain_spec _ _ _ hchain
    have hp2 : lookupField (mcpR2 fields) "properties" = some (.obj pkvs) := by
      rw [lookupField_mcpR2_ne fields _ (by decide) (by decide)]
      exact hp
    obtain ⟨p2, hmp, hl8⟩ := hprops (.obj pkvs) hp2 rfl
    simp only [mcpProps] at hmp
    cases hmv : mapValsM (fun x => toMCPF (sizeO fields) x) pkvs.toList with
    | error e => rw [hmv] at hmp; cases hmp
    | ok pkvs2 =>
      rw [hmv] at hmp
      cases hmp
      obtain ⟨u2, hu2, hm2⟩ := mapValsM_mem _ pkvs.toList pkvs2 k u hmv hm
      have hb1 := sizeO_of_mem fields "properties" (.obj pkvs)
        (lookupField_mem _ _ _ hp)
      have hb2 := sizeO_of_mem pkvs k u hm
      have hsz : sizeJ u ≤ sizeO fields := by
        simp only [sizeJ] at hb1
        omega
      refine ⟨u2, ?_, ?_⟩
      · rw [toMCPSchema_eq_toMCPF u (sizeO fields) hsz]
        exact hu2
      · rw [hout]
        exact MChild.propsObj (JObj.ofList r8) (JObj.ofList pkvs2) k u2
          (by rw [objToList_ofList]; exact hl8)
          (by rw [objToList_ofList]; exact hm2)
  | propsArr fields xs u hp hm =>
    simp only [toMCPSchema, sizeJ] at hok
    obtain ⟨r8, hout, hchain⟩ := toMCPF_obj_spec (sizeO fields) fields out hok
    obtain ⟨hpres, hprops, hitems, hcomp, haddl⟩ :=
      mcpChain_spec _ _ _ hchain
    have hp2 : lookupField (mcpR2 fields) "properties" = some (.arr xs) := by
      rw [lookupField_mcpR2_ne fields _ (by decide) (by decide)]
      exact hp
    obtain ⟨p2, hmp, hl8⟩ := hprops (.arr xs) hp2 rfl
    simp only [mcpProps] at hmp
    cases hml : mapListM (fun x => toMCPF (sizeO fields) x) xs.toList with
    | error e => rw [hml] at hmp; cases hmp
    | ok xs2 =>
      rw [hml] at hmp
      cases hmp
      obtain ⟨u2, hu2, hm2⟩ := mapListM_mem _ xs.toList xs2 u hml hm
      have hb1 := sizeO_of_mem fields "properties" (.arr xs)
        (lookupField_mem _ _ _ hp)
      have hb2 := sizeL_of_mem xs u hm
      have hsz : sizeJ u ≤ sizeO fields := by
        simp only [sizeJ] at hb1
        omega
      refine ⟨u2, ?_, ?_⟩
      · rw [toMCPSchema_eq_toMCPF u (sizeO fields) hsz]
        exact hu2
      · rw [hout]
        exact MChild.propsArr (JObj.ofList r8) (JList.ofList xs2) u2
          (by rw [objToList_ofList]; exact hl8)
          (by rw [listToList_ofList]; exact hm2)
  | items fields u hp htr =>
    simp only [toMCPSchema, sizeJ] at hok
    obtain ⟨r8, hout, hchain⟩ := toMCPF_obj_spec (sizeO fields) fields out hok
    obtain ⟨hpres, hprops, hitems, hcomp, haddl⟩ :=
      mcpChain_spec _ _ _ hchain
    have hp2 : lookupField (mcpR2 fields) "items" = some u := by
      rw [lookupField_mcpR2_ne fields _ (by decide) (by decide)]
      exact hp
    obtain ⟨u2, hu2, hl8⟩ := hitems u hp2 htr
    have hb := sizeO_of_mem fields "items" u (lookupField_mem _ _ _ hp)
    have hsz : sizeJ u ≤ sizeO fields := by omega
    refine ⟨u2, ?_, ?_⟩
    · rw [toMCPSchema_eq_toMCPF u (sizeO fields) hsz]
      exact hu2
    · rw [hout]
      exact MChild.items (JObj.ofList r8) u2
        (by rw [objToList_ofList]; exact hl8)
        (toMCPF_preserves_truthy _ u u2 hu2 htr)
  | comp fields k xs u hk hp hm =>
    simp only [toMCPSchema, sizeJ] at hok
    obtain ⟨r8, hout, hchain⟩ := toMCPF_obj_spec (sizeO fields) fields out hok
    obtain ⟨hpres, hprops, hitems, hcomp, haddl⟩ :=
      mcpChain_spec _ _ _ hchain
    have hdel : openAPIFields.contains k = false := by
      rcases hk with h | h | h <;> subst h <;> decide
    have hty : k ≠ "type" := by
      rcases hk with h | h | h <;> subst h <;> decide
    have hc2 : lookupField (mcpR2 fields) k = some (.arr xs) := by
      rw [lookupField_mcpR2_ne fields k hdel hty]
      exact hp
    obtain ⟨v2, hmc, hl8⟩ := hcomp k (.arr xs) hk hc2 rfl
    simp only [mcpComp] at hmc
    cases hml : mapListM (fun x => toMCPF (sizeO fields) x) xs.toList with
    | error e => rw [hml] at hmc; cases hmc
    | ok xs2 =>
      rw [hml] at hmc
      cases hmc
      obtain ⟨u2, hu2, hm2⟩ := mapListM_mem _ xs.toList xs2 u hml hm
      have hb1 := sizeO_of_mem fields k (.arr xs) (lookupField_mem _ _ _ hp)
      have hb2 := sizeL_of_mem xs u hm
      have hsz : sizeJ u ≤ sizeO fields := by
        simp only [sizeJ] at hb1
        omega
      refine ⟨u2, ?_, ?_⟩
      · rw [toMCPSchema_eq_toMCPF u (sizeO fields) hsz]
        exact hu2
      · rw [hout]
        exact MChild.comp (JObj.ofList r8) k (JList.ofList xs2) u2 hk
          (by rw [objToList_ofList]; exact hl8)
          (by rw [listToList_ofList]; exact hm2)
  | addProps fields u hp hg =>
    simp only [toMCPSchema, sizeJ] at hok
    obtain ⟨r8, hout, hchain⟩ := toMCPF_obj_spec (sizeO fields) fields out hok
    obtain ⟨hpres, hprops, hitems, hcomp, haddl⟩ :=
      mcpChain_spec _ _ _ hchain
    have hp2 : lookupField (mcpR2 fields) "additionalProperties" = some u := by
      rw [lookupField_mcpR2_ne fields _ (by decide) (by decide)]
      exact hp
    obtain ⟨u2, hu2, hl8⟩ := haddl u hp2 hg
    have hb := sizeO_of_mem fields "additionalProperties" u
      (lookupField_mem _ _ _ hp)
    have hsz : sizeJ u ≤ sizeO fields := by omega
    rw [Bool.and_eq_true] at hg
    obtain ⟨htr, hoa⟩ := hg
    refine ⟨u2, ?_, ?_⟩
    · rw [toMCPSchema_eq_toMCPF u (sizeO fields) hsz]
      exact hu2
    · rw [hout]
      exact MChild.addProps (JObj.ofList r8) u2
        (by rw [objToList_ofList]; exact hl8)
        (by rw [Bool.and_eq_true]
            exact ⟨toMCPF_preserves_truthy _ u u2 hu2 htr,
              toMCPF_preserves_objOrArr _ u u2 hu2 hoa⟩)

/-- Conversion success propagates along every chain of recursion channels,
and the images stay related by the same chain. -/
theorem toMCP_reach (s u out : J) (h : Relation.ReflTransGen MChild s u)
    (hok : toMCPSchema s = .ok out) :
    ∃ u2, toMCPSchema u = .ok u2 ∧ Relation.ReflTransGen MChild out u2 := by
  induction h with
  | refl => exact ⟨out, hok, Relation.ReflTransGen.refl⟩
  | tail hreach hchild ih =>
    obtain ⟨m2, hm2, hr2⟩ := ih
    obtain ⟨u2, hu2, hc2⟩ := toMCP_step _ _ _ hchild hm2
    exact ⟨u2, hu2, hr2.tail hc2⟩

/-- The null-union value always is an array containing the string "null". -/
theorem typeWithNull_has_null : ∀ t : J, ∃ ts : JList,
    typeWithNull t = .arr ts ∧ (J.str "null") ∈ ts.toList := by
  intro t
  cases t with
  | arr xs =>
    refine ⟨JList.ofList (xs.toList ++ [J.str "null"]), rfl, ?_⟩
    rw [listToList_ofList]
    exact List.mem_append_right _ (List.mem_singleton.mpr rfl)
  | null =>
    refine ⟨JList.ofList [J.null, J.str "null"], rfl, ?_⟩
    rw [listToList_ofList]
    exact List.mem_cons_of_mem _ (List.mem_singleton.mpr rfl)
  | bool b =>
    refine ⟨JList.ofList [J.bool b, J.str "null"], rfl, ?_⟩
    rw [listToList_ofList]
    exact List.mem_cons_of_mem _ (List.mem_singleton.mpr rfl)
  | num n =>
    refine ⟨JList.ofList [J.num n, J.str "null"], rfl, ?_⟩
    rw [listToList_ofList]
    exact List.mem_cons_of_mem _ (List.mem_singleton.mpr rfl)
  | str sv =>
    refine ⟨JList.ofList [J.str sv, J.str "null"], rfl, ?_⟩
    rw [listToList_ofList]
    exact List.mem_cons_of_mem _ (List.mem_singleton.mpr rfl)
  | obj kvs =>
    refine ⟨JList.ofList [J.obj kvs, J.str "null"], rfl, ?_⟩
    rw [listToList_ofList]
    exact List.mem_cons_of_mem _ (List.mem_singleton.mpr rfl)

/-- At a single object node carrying `nullable = true` and a truthy `type`,
the converted node's `type` is the union with null and `nullable` is gone. -/
theorem toMCPSchema_nullable_node (fields : JObj) (out t0 : J)
    (hok : toMCPSchema (.obj fields) = .ok out)
    (hnul : lookupField fields.toList "nullable" = some (.bool true))
    (ht : lookupField fields.toList "type" = some t0)
    (htr : truthy t0 = true) :
    ∃ r8, out = J.objL r8 ∧
      lookupField r8 "type" = some (typeWithNull t0) ∧
      lookupField r8 "nullable" = none := by
  simp only [toMCPSchema, sizeJ] at hok
  obtain ⟨r8, hout, hchain⟩ := toMCPF_obj_spec (sizeO fields) fields out hok
  obtain ⟨hpres, _, _, _, _⟩ := mcpChain_spec _ _ _ hchain
  refine ⟨r8, hout, ?_, ?_⟩
  · rw [hpres "type" (by decide) (by decide) (by decide) (by decide)
      (by decide) (by decide)]
    exact lookupField_mcpR2_type_union fields t0 hnul ht htr
  · rw [hpres "nullable" (by decide) (by decide) (by decide) (by decide)
      (by decide) (by decide)]
    exact lookupField_mcpR2_nullable fields

theorem jsGet_subterm (c : J) (key : String) (t : J) (h : jsGet c key = some t) :
    sizeJ t ≤ sizeJ c ∧ allStrJ t ⊆ allStrJ c := by
  cases c with
  | obj kvs =>
    have hm := lookupField_mem _ _ _ h
    constructor
    · have := sizeO_of_mem kvs key t hm
      simp only [sizeJ]
      omega
    · exact (allStrO_of_mem kvs key t hm).trans (by simp [allStrJ])
  | arr xs =>
    simp only [jsGet] at h
    cases hi : jsIndex key with
    | none => rw [hi] at h; cases h
    | some i =>
      simp only [hi] at h
      have hm : t ∈ xs.toList := List.getElem?_mem h
      constructor
      · have := sizeL_of_mem xs t hm
        simp only [sizeJ]
        omega
      · exact (allStrL_of_mem xs t hm).trans (by simp [allStrJ])
  | null => cases h
  | bool b => cases h
  | num n => cases h
  | str s2 => cases h

theorem walkPointer_subterm : ∀ (parts : List String) (root t : J),
    walkPointer root parts = some t → sizeJ t ≤ sizeJ root ∧ allStrJ t ⊆ allStrJ root
  | [], root, t, h => by
    rw [walkPointer] at h
    cases h
    exact ⟨le_refl _, subset_rfl⟩
  | p :: rest, root, t, h => by
    rw [walkPointer] at h
    cases hg : jsGet root (decodeSeg p) with
    | none => rw [hg] at h; cases h
    | some next =>
      rw [hg] at h
      have h1 := jsGet_subterm root (decodeSeg p) next hg
      have h2 := walkPointer_subterm rest next t h
      exact ⟨h2.1.trans h1.1, h2.2.trans h1.2⟩

/-- Count of candidate pointer strings not yet visited. -/
def refCount (spec s : J) (v : List String) : Nat :=
  ((allStrJ spec ∪ allStrJ s).filter (fun r => r ∉ v)).card

theorem refCount_mono {spec a b : J} {v w : List String}
    (hab : allStrJ a ⊆ allStrJ b) (hvw : v ⊆ w) :
    refCount spec a w ≤ refCount spec b v := by
  apply Finset.card_le_card
  intro x hx
  rw [Finset.mem_filter] at hx ⊢
  rcases hx with ⟨hx1, hx2⟩
  refine ⟨?_, fun hmem => hx2 (hvw hmem)⟩
  rcases Finset.mem_union.mp hx1 with h | h
  · exact Finset.mem_union_left _ h
  · exact Finset.mem_union_right _ (hab h)

theorem refCount_drop {spec s t : J} {v : List String} {r : String}
    (hr : r ∈ allStrJ s) (hrv : r ∉ v) (ht : allStrJ t ⊆ allStrJ spec) :
    refCount spec t (r :: v) < refCount spec s v := by
  have hrS : r ∈ (allStrJ spec ∪ allStrJ s).filter (fun x => x ∉ v) :=
    Finset.mem_filter.mpr ⟨Finset.mem_union_right _ hr, hrv⟩
  have hsub : (allStrJ spec ∪ allStrJ t).filter (fun x => x ∉ r :: v) ⊆
      ((allStrJ spec ∪ allStrJ s).filter (fun x => x ∉ v)).erase r := by
    intro x hx
    rw [Finset.mem_filter] at hx
    rcases hx with ⟨hx1, hx2⟩
    rw [List.mem_cons, not_or] at hx2
    rw [Finset.mem_erase, Finset.mem_filter]
    refine ⟨hx2.1, ?_, hx2.2⟩
    rcases Finset.mem_union.mp hx1 with h | h
    · exact Finset.mem_union_left _ h
    · exact Finset.mem_union_left _ (ht h)
  calc ((allStrJ spec ∪ allStrJ t).filter (fun x => x ∉ r :: v)).card
      ≤ (((allStrJ spec ∪ allStrJ s).filter (fun x => x ∉ v)).erase r).card :=
        Finset.card_le_card hsub
    _ < ((allStrJ spec ∪ allStrJ s).filter (fun x => x ∉ v)).card :=
        Finset.card_erase_lt_of_mem hrS

/-- Fuel bound for one resolver call. -/
def schBound (spec s : J) (v : List String) : Nat :=
  sizeJ s + (refCount spec s v + 1) * (sizeJ spec + 4)

/-- Wellformedness of one resolver step's outcome: fuel was not exhausted,
and on success the visited set only grew. -/
def GoodRes {β : Type} (v : List String) (res : Except RErr (β × List String)) : Prop :=
  res ≠ .error .fuel ∧ ∀ b v2, res = .ok (b, v2) → v ⊆ v2

theorem goodRes_error {β : Type} (v : List String) (e : RErr) (he : e ≠ .fuel) :
    GoodRes (β := β) v (.error e) := by
  constructor
  · intro h
    cases h
    exact he rfl
  · intro b v2 h
    cases h

theorem goodRes_ok {β : Type} (v v2 : List String) (b : β) (h : v ⊆ v2) :
    GoodRes v (.ok (b, v2)) := by
  constructor
  · intro hc
    cases hc
  · intro b2 v3 heq
    cases heq
    exact h

theorem threadMap_good {α β : Type}
    (f : α → List String → Except RErr (β × List String)) (xs : List α)
    (v : List String)
    (hf : ∀ a ∈ xs, ∀ w, v ⊆ w → GoodRes w (f a w)) :
    ∀ w, v ⊆ w → GoodRes w (threadMap f xs w) := by
  induction xs with
  | nil =>
    intro w hw
    exact goodRes_ok w w [] (fun x hx => hx)
  | cons a rest ih =>
    intro w hw
    have hga := hf a (List.mem_cons_self _ _) w hw
    cases hres : f a w with
    | error e =>
      have hne : e ≠ .fuel :=
        fun hfuel => hga.1 (hres.trans (congrArg Except.error hfuel))
      simp only [threadMap, hres]
      exact goodRes_error _ _ hne
    | ok bv =>
      obtain ⟨b, v1⟩ := bv
      have hwv1 : w ⊆ v1 := hga.2 b v1 hres
      have hrec := ih (fun x hx => hf x (List.mem_cons_of_mem _ hx)) v1
        (hw.trans hwv1)
      cases hres2 : threadMap f rest v1 with
      | error e =>
        have hne : e ≠ .fuel :=
          fun hfuel => hrec.1 (hres2.trans (congrArg Except.error hfuel))
        simp only [threadMap, hres, hres2]
        exact goodRes_error _ _ hne
      | ok bsv =>
        obtain ⟨bs, v2⟩ := bsv
        simp only [threadMap, hres, hres2]
        exact goodRes_ok w v2 (b :: bs) (hwv1.trans (hrec.2 bs v2 hres2))

theorem classifyRef_strRef : ∀ (kvs : List (String × J)) (ref : String),
    classifyRef kvs = .strRef ref →
    lookupField kvs "$ref" = some (.str ref) ∧ ref ≠ "" := by
  intro kvs ref h
  unfold classifyRef at h
  cases hl : lookupField kvs "$ref" with
  | none => rw [hl] at h; cases h
  | some x =>
    rw [hl] at h
    cases x with
    | str r =>
      by_cases hr : r = ""
      · simp only [if_pos hr] at h
        cases h
      · simp only [if_neg hr] at h
        cases h
        exact ⟨rfl, hr⟩
    | null => simp only [truthy] at h; cases h
    | bool b => cases b <;> simp only [truthy] at h <;> cases h
    | num n =>
      by_cases hn : (n != 0) = true
      · simp only [truthy, hn, if_true] at h; cases h
      · simp only [truthy, hn, if_false] at h; cases h
    | arr xs => simp only [truthy] at h; cases h
    | obj o => simp only [truthy] at h; cases h

theorem resolveRefCore_descend (spec : J) (ref : String) (v : List String)
    (t : J) (v2 : List String)
    (h : resolveRefCore spec ref v = .descend t v2) :
    v2 = ref :: v ∧ ref ∉ v ∧ sizeJ t ≤ sizeJ spec ∧ allStrJ t ⊆ allStrJ spec := by
  unfold resolveRefCore at h
  by_cases hc : v.contains ref = true
  · rw [if_pos hc] at h; cases h
  · rw [if_neg hc] at h
    have hnm : ref ∉ v := by
      intro hmem
      exact hc (List.contains_iff_exists_mem_beq.mpr ⟨ref, hmem, by simp⟩)
    dsimp only at h
    split at h
    · rename_i ptr heq
      cases hw : walkPointer spec ((splitSlash ptr).map String.mk) with
      | none => rw [hw] at h; cases h
      | some tgt =>
        rw [hw] at h
        injection h with h1 h2
        subst h1
        subst h2
        have hws := walkPointer_subterm ((splitSlash ptr).map String.mk) spec tgt hw
        exact ⟨rfl, hnm, hws.1, hws.2⟩
    · cases h

theorem wrapEntryVal_good (k : String) (v : List String)
    (res : Except RErr (J × List String)) (h : GoodRes v res) :
    GoodRes v (wrapEntryVal k res) := by
  cases res with
  | error e =>
    exact goodRes_error _ _ (fun hf => h.1 (congrArg Except.error hf))
  | ok bv =>
    obtain ⟨b, v2⟩ := bv
    exact goodRes_ok _ _ _ (h.2 b v2 rfl)

theorem wrapObjField_good (k : String) (v : List String)
    (res : Except RErr (List (String × J) × List String)) (h : GoodRes v res) :
    GoodRes v (wrapObjField k res) := by
  cases res with
  | error e =>
    exact goodRes_error _ _ (fun hf => h.1 (congrArg Except.error hf))
  | ok bv =>
    obtain ⟨b, v2⟩ := bv
    exact goodRes_ok _ _ _ (h.2 b v2 rfl)

theorem wrapArrField_good (k : String) (v : List String)
    (res : Except RErr (List J × List String)) (h : GoodRes v res) :
    GoodRes v (wrapArrField k res) := by
  cases res with
  | error e =>
    exact goodRes_error _ _ (fun hf => h.1 (congrArg Except.error hf))
  | ok bv =>
    obtain ⟨b, v2⟩ := bv
    exact goodRes_ok _ _ _ (h.2 b v2 rfl)

theorem wrapObjOut_good (v : List String)
    (res : Except RErr (List (String × J) × List String)) (h : GoodRes v res) :
    GoodRes v (wrapObjOut res) := by
  cases res with
  | error e =>
    exact goodRes_error _ _ (fun hf => h.1 (congrArg Except.error hf))
  | ok bv =>
    obtain ⟨b, v2⟩ := bv
    exact goodRes_ok _ _ _ (h.2 b v2 rfl)

theorem wrapMerge_good (kvs : List (String × J)) (v : List String)
    (res : Except RErr (J × List String)) (h : GoodRes v res) :
    GoodRes v (wrapMerge kvs res) := by
  cases res with
  | error e =>
    exact goodRes_error _ _ (fun hf => h.1 (congrArg Except.error hf))
  | ok bv =>
    obtain ⟨b, v2⟩ := bv
    exact goodRes_ok _ _ _ (h.2 b v2 rfl)

theorem resolveEntryWith_good
    (recur : J → List String → Except RErr (J × List String))
    (k : String) (val : J) (v w : List String) (hvw : v ⊆ w)
    (hval : ∀ w2, v ⊆ w2 → GoodRes w2 (recur val w2))
    (hobj : ∀ pkvs, val = J.obj pkvs → ∀ k2 x, (k2, x) ∈ pkvs.toList →
      ∀ w2, v ⊆ w2 → GoodRes w2 (recur x w2))
    (harr : ∀ xs, val = J.arr xs → ∀ x ∈ xs.toList,
      ∀ w2, v ⊆ w2 → GoodRes w2 (recur x w2)) :
    GoodRes w (resolveEntryWith recur (k, val) w) := by
  unfold resolveEntryWith
  dsimp only
  by_cases hio : isObjOrArr val = true
  swap
  · rw [if_neg hio]
    exact goodRes_ok _ _ _ (fun x hx => hx)
  · rw [if_pos hio]
    by_cases hk1 : k = "properties"
    · rw [if_pos hk1]
      cases val with
      | obj pkvs =>
        dsimp only
        refine wrapObjField_good k w _ (threadMap_good _ pkvs.toList v ?_ w hvw)
        intro pkv hm w2 hw2
        exact wrapEntryVal_good pkv.1 w2 _ (hobj pkvs rfl pkv.1 pkv.2 hm w2 hw2)
      | arr xs =>
        dsimp only
        refine wrapArrField_good k w _ (threadMap_good _ xs.toList v ?_ w hvw)
        intro x hm w2 hw2
        exact harr xs rfl x hm w2 hw2
      | null => exact goodRes_ok _ _ _ (fun x hx => hx)
      | bool b => exact goodRes_ok _ _ _ (fun x hx => hx)
      | num n => exact goodRes_ok _ _ _ (fun x hx => hx)
      | str s2 => exact goodRes_ok _ _ _ (fun x hx => hx)
    · rw [if_neg hk1]
      by_cases hk2 : k = "items"
      · rw [if_pos hk2]
        exact wrapEntryVal_good k w _ (hval w hvw)
      · rw [if_neg hk2]
        by_cases hk3 : k = "allOf" ∨ k = "anyOf" ∨ k = "oneOf"
        · rw [if_pos hk3]
          cases val with
          | arr xs =>
            dsimp only
            refine wrapArrField_good k w _ (threadMap_good _ xs.toList v ?_ w hvw)
            intro x hm w2 hw2
            exact harr xs rfl x hm w2 hw2
          | obj pkvs => exact goodRes_error _ _ (by decide)
          | null => exact goodRes_error _ _ (by decide)
          | bool b => exact goodRes_error _ _ (by decide)
          | num n => exact goodRes_error _ _ (by decide)
          | str s2 => exact goodRes_error _ _ (by decide)
        · rw [if_neg hk3]
          by_cases hk4 : k = "additionalProperties"
          · rw [if_pos hk4]
            exact wrapEntryVal_good k w _ (hval w hvw)
          · rw [if_neg hk4]
            exact goodRes_ok _ _ _ (fun x hx => hx)

/-- Master lemma: with fuel above `schBound`, the resolver does not exhaust
fuel and only grows the visited set.  This is the termination argument for
`SchemaResolver.resolveSchema`. -/
theorem resolveSchemaF_good : ∀ (fuel : Nat) (spec s : J) (v : List String),
    schBound spec s v < fuel → GoodRes v (resolveSchemaF spec fuel s v) := by
  intro fuel
  induction fuel with
  | zero => intro spec s v h; exact absurd h (Nat.not_lt_zero _)
  | succ fuel ih =>
    intro spec s v hb
    cases s with
    | null => simp only [resolveSchemaF]; exact goodRes_ok _ _ _ (fun x hx => hx)
    | bool b => simp only [resolveSchemaF]; exact goodRes_ok _ _ _ (fun x hx => hx)
    | num n => simp only [resolveSchemaF]; exact goodRes_ok _ _ _ (fun x hx => hx)
    | str s2 => simp only [resolveSchemaF]; exact goodRes_ok _ _ _ (fun x hx => hx)
    | arr xs => simp only [resolveSchemaF]; exact goodRes_ok _ _ _ (fun x hx => hx)
    | obj fields =>
      simp only [resolveSchemaF]
      cases hcl : classifyRef fields.toList with
      | badRef => exact goodRes_error _ _ (by decide)
      | strRef ref =>
        dsimp only
        obtain ⟨hlk, hne⟩ := classifyRef_strRef _ _ hcl
        cases hrc : resolveRefCore spec ref v with
        | cycleMarker => exact goodRes_ok _ _ _ (fun x hx => hx)
        | failExternal => exact goodRes_error _ _ (fun h => by cases h)
        | failInvalid => exact goodRes_error _ _ (fun h => by cases h)
        | descend target v2 =>
          obtain ⟨rfl, hnin, hsz, hstr⟩ := resolveRefCore_descend spec ref v _ _ hrc
          have hrefmem : ref ∈ allStrJ (.obj fields) := by
            have hm := lookupField_mem _ _ _ hlk
            have hsub := allStrO_of_mem fields _ _ hm
            have hrr : ref ∈ allStrJ (J.str ref) := by simp [allStrJ]
            simp only [allStrJ]
            exact hsub hrr
          have hKd : refCount spec target (ref :: v) < refCount spec (.obj fields) v :=
            refCount_drop hrefmem hnin hstr
          have hbt : schBound spec target (ref :: v) < fuel := by
            have h1 : (refCount spec target (ref :: v) + 1) * (sizeJ spec + 4) ≤
                refCount spec (.obj fields) v * (sizeJ spec + 4) :=
              Nat.mul_le_mul_right _ (by omega)
            have h2 : 1 ≤ sizeJ (J.obj fields) := sizeJ_pos _
            unfold schBound at hb ⊢
            have h3 : (refCount spec (.obj fields) v + 1) * (sizeJ spec + 4) =
                refCount spec (.obj fields) v * (sizeJ spec + 4) + (sizeJ spec + 4) := by
              ring
            omega
          have hgood := ih spec target (ref :: v) hbt
          have hsubv : v ⊆ ref :: v := fun x hx => List.mem_cons_of_mem _ hx
          refine wrapMerge_good _ v _ ⟨hgood.1, ?_⟩
          intro b v3 hres
          exact hsubv.trans (hgood.2 b v3 hres)
      | noRef =>
        dsimp only
        refine wrapObjOut_good v _
          (threadMap_good _ fields.toList v ?_ v (fun x hx => hx))
        intro kv hm w hw
        obtain ⟨k, val⟩ := kv
        have hszval : sizeJ val + 2 ≤ sizeO fields := sizeO_of_mem fields k val hm
        have hstrval : allStrJ val ⊆ allStrJ (J.obj fields) := by
          have h5 := allStrO_of_mem fields k val hm
          simpa [allStrJ] using h5
        refine resolveEntryWith_good _ k val v w hw ?_ ?_ ?_
        · intro w2 hw2
          refine ih spec val w2 ?_
          have hKm : refCount spec val w2 ≤ refCount spec (.obj fields) v :=
            refCount_mono hstrval hw2
          have h1 : (refCount spec val w2 + 1) * (sizeJ spec + 4) ≤
              (refCount spec (.obj fields) v + 1) * (sizeJ spec + 4) :=
            Nat.mul_le_mul_right _ (by omega)
          unfold schBound at hb ⊢
          simp only [sizeJ] at hb
          omega
        · intro pkvs hval k2 x hmx w2 hw2
          subst hval
          have hszx : sizeJ x + 2 ≤ sizeO pkvs := sizeO_of_mem pkvs k2 x hmx
          have hstrx : allStrJ x ⊆ allStrJ (J.obj fields) := by
            have h4 := allStrO_of_mem pkvs k2 x hmx
            refine subset_trans ?_ hstrval
            simpa [allStrJ] using h4
          have hKm : refCount spec x w2 ≤ refCount spec (.obj fields) v :=
            refCount_mono hstrx hw2
          refine ih spec x w2 ?_
          have h1 : (refCount spec x w2 + 1) * (sizeJ spec + 4) ≤
              (refCount spec (.obj fields) v + 1) * (sizeJ spec + 4) :=
            Nat.mul_le_mul_right _ (by omega)
          unfold schBound at hb ⊢
          simp only [sizeJ] at hb hszval ⊢
          omega
        · intro xs hval x hmx w2 hw2
          subst hval
          have hszx : sizeJ x + 1 ≤ sizeL xs := sizeL_of_mem xs x hmx
          have hstrx : allStrJ x ⊆ allStrJ (J.obj fields) := by
            have h4 := allStrL_of_mem xs x hmx
            refine subset_trans ?_ hstrval
            simpa [allStrJ] using h4
          have hKm : refCount spec x w2 ≤ refCount spec (.obj fields) v :=
            refCount_mono hstrx hw2
          refine ih spec x w2 ?_
          have h1 : (refCount spec x w2 + 1) * (sizeJ spec + 4) ≤
              (refCount spec (.obj fields) v + 1) * (sizeJ spec + 4) :=
            Nat.mul_le_mul_right _ (by omega)
          unfold schBound at hb ⊢
          simp only [sizeJ] at hb hszval ⊢
          omega

mutual
theorem card_allStrJ_le : ∀ t : J, (allStrJ t).card ≤ sizeJ t
  | .null => by simp [allStrJ, sizeJ]
  | .bool b => by simp [allStrJ, sizeJ]
  | .num n => by simp [allStrJ, sizeJ]
  | .str s2 => by simp [allStrJ, sizeJ]
  | .arr xs => by
    have h := card_allStrL_le xs
    simp only [allStrJ, sizeJ]
    omega
  | .obj kvs => by
    have h := card_allStrO_le kvs
    simp only [allStrJ, sizeJ]
    omega
theorem card_allStrL_le : ∀ xs : JList, (allStrL xs).card ≤ sizeL xs
  | .nil => by simp [allStrL, sizeL]
  | .cons x xs => by
    have h1 := card_allStrJ_le x
    have h2 := card_allStrL_le xs
    have h3 := Finset.card_union_le (allStrJ x) (allStrL xs)
    simp only [allStrL, sizeL]
    omega
theorem card_allStrO_le : ∀ kvs : JObj, (allStrO kvs).card ≤ sizeO kvs
  | .nil => by simp [allStrO, sizeO]
  | .cons k v kvs => by
    have h1 := card_allStrJ_le v
    have h2 := card_allStrO_le kvs
    have h3 := Finset.card_union_le (allStrJ v) (allStrO kvs)
    simp only [allStrO, sizeO]
    omega
end

/-- The wrapper fuel is always sufficient: `resolveSchema` never runs out —
the mechanized termination property of the resolver. -/
theorem resolveSchema_no_fuel_error (spec s : J) :
    resolveSchema spec s ≠ .error .fuel := by
  have hK : refCount spec s [] ≤ sizeJ spec + sizeJ s := by
    unfold refCount
    calc ((allStrJ spec ∪ allStrJ s).filter (fun r => r ∉ ([] : List String))).card
        ≤ (allStrJ spec ∪ allStrJ s).card := Finset.card_filter_le _ _
      _ ≤ (allStrJ spec).card + (allStrJ s).card := Finset.card_union_le _ _
      _ ≤ sizeJ spec + sizeJ s :=
          Nat.add_le_add (card_allStrJ_le _) (card_allStrJ_le _)
  have hlt : schBound spec s [] < fuelBound spec s := by
    unfold schBound fuelBound
    have hm : (refCount spec s [] + 1) * (sizeJ spec + 4) ≤
        (sizeJ spec + sizeJ s + 1) * (sizeJ spec + 4) :=
      Nat.mul_le_mul_right _ (by omega)
    omega
  exact (resolveSchemaF_good _ spec s [] hlt).1

/-! ### Claim C5: pointer-resolution failure modes -/

theorem walkPointer_none_iff (parts : List String) (root : J) :
    walkPointer root parts = none ↔
      ∃ pre part post mid, parts = pre ++ part :: post ∧
        walkPointer root pre = some mid ∧ jsGet mid (decodeSeg part) = none := by
  induction parts generalizing root with
  | nil =>
    simp only [walkPointer]
    constructor
    · intro h; cases h
    · rintro ⟨pre, part, post, mid, hsplit, _, _⟩
      exact absurd hsplit (by simp)
  | cons p rest ih =>
    constructor
    · intro h
      cases hg : jsGet root (decodeSeg p) with
      | none => exact ⟨[], p, rest, root, rfl, rfl, hg⟩
      | some next =>
        rw [walkPointer, hg] at h
        obtain ⟨pre, part, post, mid, hsplit, hwalk, hmiss⟩ := (ih next).mp h
        refine ⟨p :: pre, part, post, mid, by simp [hsplit], ?_, hmiss⟩
        rw [walkPointer, hg]
        exact hwalk
    · rintro ⟨pre, part, post, mid, hsplit, hwalk, hmiss⟩
      cases pre with
      | nil =>
        simp only [List.nil_append, List.cons.injEq] at hsplit
        obtain ⟨rfl, rfl⟩ := hsplit
        simp only [walkPointer] at hwalk
        cases hwalk
        rw [walkPointer, hmiss]
      | cons q qre =>
        simp only [List.cons_append, List.cons.injEq] at hsplit
        obtain ⟨rfl, hsplit2⟩ := hsplit
        rw [walkPointer] at hwalk ⊢
        cases hg : jsGet root (decodeSeg p) with
        | none => rfl
        | some next =>
          rw [hg] at hwalk
          exact (ih next).mpr ⟨qre, part, post, mid, hsplit2, hwalk, hmiss⟩

/-- C5: a pointer that is being freshly resolved (not a cycle revisit) and
is non-local, or whose decoded-segment walk fails because some segment is
missing from the spec tree, makes resolution throw (`externalRef` /
`invalidRef`, the embedding of the code's loud reference errors) rather
than producing any value; and a `$ref` node under `resolveSchema`
propagates that throw. -/
theorem resolveRef_fails_loudly (spec : J) (ref : String) (visited : List String)
    (hfresh : visited.contains ref = false) :
    ((∀ rest, ref.data ≠ '#' :: '/' :: rest) →
      resolveRefCore spec ref visited = .failExternal) ∧
    (∀ rest, ref.data = '#' :: '/' :: rest →
      (∃ pre part post mid,
          (splitSlash rest).map String.mk = pre ++ part :: post ∧
          walkPointer spec pre = some mid ∧ jsGet mid (decodeSeg part) = none) →
      resolveRefCore spec ref visited = .failInvalid) ∧
    (∀ fuel fields, classifyRef (JObj.toList fields) = .strRef ref →
      (resolveRefCore spec ref visited = .failExternal →
        resolveSchemaF spec (fuel + 1) (.obj fields) visited =
          .error (.externalRef ref)) ∧
      (resolveRefCore spec ref visited = .failInvalid →
        resolveSchemaF spec (fuel + 1) (.obj fields) visited =
          .error (.invalidRef ref))) := by
  refine ⟨?_, ?_, ?_⟩
  · intro hnl
    unfold resolveRefCore
    simp only [hfresh, Bool.false_eq_true, if_false]
  · intro rest hdata hmiss
    have hw : walkPointer spec ((splitSlash rest).map String.mk) = none :=
      (walkPointer_none_iff _ _).mpr hmiss
    unfold resolveRefCore
    simp only [hfresh, Bool.false_eq_true, if_false, hdata, hw]
  · intro fuel fields hclass
    constructor
    · intro hres
      simp only [resolveSchemaF, hclass, hres]
    · intro hres
      simp only [resolveSchemaF, hclass, hres]

/-- C5 witness: a concrete external ref and a concrete dangling local ref
against the tiny spec. -/
theorem resolveRef_fails_loudly_witness :
    ((∀ rest, ("http://other".data ≠ '#' :: '/' :: rest)) →
      resolveRefCore specA "http://other" [] = .failExternal) ∧
    (∀ rest, ("http://other" : String).data = '#' :: '/' :: rest →
      (∃ pre part post mid,
          (splitSlash rest).map String.mk = pre ++ part :: post ∧
          walkPointer specA pre = some mid ∧ jsGet mid (decodeSeg part) = none) →
      resolveRefCore specA "http://other" [] = .failInvalid) ∧
    (∀ fuel fields, classifyRef (JObj.toList fields) = .strRef "http://other" →
      (resolveRefCore specA "http://other" [] = .failExternal →
        resolveSchemaF specA (fuel + 1) (.obj fields) [] =
          .error (.externalRef "http://other")) ∧
      (resolveRefCore specA "http://other" [] = .failInvalid →
        resolveSchemaF specA (fuel + 1) (.obj fields) [] =
          .error (.invalidRef "http://other"))) :=
  resolveRef_fails_loudly specA "http://other" [] (by decide)

/-- Concrete check: the external ref throws and the dangling local ref
throws, end to end through `resolveSchema`. -/
theorem resolveSchema_concrete_failures :
    resolveSchema specA (J.objL [("$ref", .str "http://other")]) =
      .error (.externalRef "http://other") ∧
    resolveSchema specA (J.objL [("$ref", .str "#/components/schemas/Missing")]) =
      .error (.invalidRef "#/components/schemas/Missing") := ⟨rfl, rfl⟩

/-! ### Claim C1: cycle termination with marker nodes -/

/-- A self-referential spec: `Node.properties.child` points back at `Node`. -/
def specCycle : J :=
  J.objL [("components", J.objL [("schemas", J.objL [("Node",
    J.objL [("type", .str "object"),
      ("properties", J.objL [("child",
        J.objL [("$ref", .str "#/components/schemas/Node")])])])])])]

/-- A mutually-referential spec: `A → B → A`. -/
def specMutual : J :=
  J.objL [("components", J.objL [("schemas", J.objL
    [("A", J.objL [("properties", J.objL [("b",
        J.objL [("$ref", .str "#/components/schemas/B")])])]),
     ("B", J.objL [("properties", J.objL [("a",
        J.objL [("$ref", .str "#/components/schemas/A")])])])])])]

/-- C1: `resolveSchema` terminates on every input (the chosen fuel is never
exhausted); a revisited pointer never recurses — `resolveRef` returns the
`{ $ref }` marker and the node resolves to that marker merged with its
siblings; and on the concrete self-referential and mutually-referential
specs the resolved tree carries the unresolved pointer marker at the cyclic
position. -/
theorem resolveSchema_cycle_terminates_with_marker :
    (∀ spec s : J, resolveSchema spec s ≠ .error .fuel) ∧
    (∀ (spec : J) (ref : String) (v : List String), v.contains ref = true →
      resolveRefCore spec ref v = .cycleMarker) ∧
    (∀ (spec : J) (fuel : Nat) (fields : JObj) (ref : String) (v : List String),
      classifyRef fields.toList = .strRef ref → v.contains ref = true →
      resolveSchemaF spec (fuel + 1) (.obj fields) v =
        .ok (J.objL (mergeSpread [("$ref", .str ref)]
          (removeField fields.toList "$ref")), v)) ∧
    (resolveSchema specCycle (J.objL [("$ref", .str "#/components/schemas/Node")]) =
      .ok (J.objL [("type", .str "object"),
        ("properties", J.objL [("child",
          J.objL [("$ref", .str "#/components/schemas/Node")])])],
        ["#/components/schemas/Node"])) ∧
    (resolveSchema specMutual (J.objL [("$ref", .str "#/components/schemas/A")]) =
      .ok (J.objL [("properties", J.objL [("b",
          J.objL [("properties", J.objL [("a",
            J.objL [("$ref", .str "#/components/schemas/A")])])])])],
        ["#/components/schemas/B", "#/components/schemas/A"])) := by
  refine ⟨resolveSchema_no_fuel_error, ?_, ?_, rfl, rfl⟩
  · intro spec ref v hv
    unfold resolveRefCore
    rw [if_pos hv]
  · intro spec fuel fields ref v hcl hv
    have hcyc : resolveRefCore spec ref v = .cycleMarker := by
      unfold resolveRefCore
      rw [if_pos hv]
    simp only [resolveSchemaF, hcl, hcyc]

/-- C1 witness: the marker conjunct applied at a concrete revisited ref. -/
theorem resolveSchema_cycle_terminates_with_marker_witness :
    resolveSchemaF specCycle 1
        (.obj (JObj.ofList [("$ref", .str "#/components/schemas/Node")]))
        ["#/components/schemas/Node"] =
      .ok (J.objL (mergeSpread [("$ref", .str "#/components/schemas/Node")]
        (removeField (JObj.ofList
          [("$ref", .str "#/components/schemas/Node")]).toList "$ref")),
        ["#/components/schemas/Node"]) :=
  resolveSchema_cycle_terminates_with_marker.2.2.1 specCycle 0
    (JObj.ofList [("$ref", .str "#/components/schemas/Node")])
    "#/components/schemas/Node" ["#/components/schemas/Node"]
    rfl (by decide)

/-! ### Claim C8: idempotence of resolution -/

theorem objOfList_toList : ∀ kvs : JObj, JObj.ofList kvs.toList = kvs
  | .nil => rfl
  | .cons k v kvs => by
    simp only [JObj.toList, JObj.ofList]
    rw [objOfList_toList kvs]

theorem listOfList_toList : ∀ xs : JList, JList.ofList xs.toList = xs
  | .nil => rfl
  | .cons x xs => by
    simp only [JList.toList, JList.ofList]
    rw [listOfList_toList xs]

theorem threadMap_id {α : Type}
    (f : α → List String → Except RErr (α × List String)) (xs : List α)
    (v : List String) (hf : ∀ a ∈ xs, f a v = .ok (a, v)) :
    threadMap f xs v = .ok (xs, v) := by
  induction xs with
  | nil => rfl
  | cons a rest ih =>
    simp only [threadMap, hf a (List.mem_cons_self _ _),
      ih (fun x hx => hf x (List.mem_cons_of_mem _ hx))]

/-! Schemas whose resolver traversal is the identity: no truthy `$ref`
anywhere the traversal looks, and no object-valued composition keys (which
would crash `.map`).  This is exactly the class of outputs on which a
second resolution changes nothing. -/
mutual
inductive Clean : J → Prop where
  | base : ∀ t : J, (∀ fields : JObj, t ≠ .obj fields) → Clean t
  | node : ∀ fields : JObj, classifyRef fields.toList = .noRef →
      (∀ k val, (k, val) ∈ fields.toList → CleanEntry k val) →
      Clean (.obj fields)
inductive CleanEntry : String → J → Prop where
  | skip : ∀ k val, isObjOrArr val = false → CleanEntry k val
  | propsObj : ∀ pkvs : JObj, (∀ k2 x, (k2, x) ∈ pkvs.toList → Clean x) →
      CleanEntry "properties" (.obj pkvs)
  | propsArr : ∀ xs : JList, (∀ x ∈ xs.toList, Clean x) →
      CleanEntry "properties" (.arr xs)
  | itemsV : ∀ val, Clean val → CleanEntry "items" val
  | compV : ∀ (k : String) (xs : JList), k = "allOf" ∨ k = "anyOf" ∨ k = "oneOf" →
      (∀ x ∈ xs.toList, Clean x) → CleanEntry k (.arr xs)
  | addV : ∀ val, Clean val → CleanEntry "additionalProperties" val
  | otherK : ∀ (k : String) (val : J), k ≠ "properties" → k ≠ "items" →
      k ≠ "allOf" → k ≠ "anyOf" → k ≠ "oneOf" → k ≠ "additionalProperties" →
      CleanEntry k val
end

theorem resolveEntryWith_id
    (recur : J → List String → Except RErr (J × List String))
    (k : String) (val : J) (v : List String)
    (hrecur : ∀ x, Clean x → sizeJ x ≤ sizeJ val → recur x v = .ok (x, v))
    (hce : CleanEntry k val) :
    resolveEntryWith recur (k, val) v = .ok ((k, val), v) := by
  cases hce with
  | skip _ _ hio =>
    unfold resolveEntryWith
    dsimp only
    rw [if_neg (by simp [hio])]
  | propsObj pkvs hcl =>
    unfold resolveEntryWith
    dsimp only
    rw [if_pos (show isObjOrArr (J.obj pkvs) = true from rfl),
      if_pos (show ("properties" : String) = "properties" from rfl)]
    have ht : threadMap (fun pkv w => wrapEntryVal pkv.1 (recur pkv.2 w))
        pkvs.toList v = .ok (pkvs.toList, v) := by
      apply threadMap_id
      intro pkv hm
      have hx : recur pkv.2 v = .ok (pkv.2, v) := by
        apply hrecur pkv.2 (hcl pkv.1 pkv.2 hm)
        have := sizeO_of_mem pkvs pkv.1 pkv.2 hm
        simp only [sizeJ]
        omega
      rw [hx]
      rfl
    rw [ht]
    simp only [wrapObjField, J.objL, objOfList_toList]
  | propsArr xs hcl =>
    unfold resolveEntryWith
    dsimp only
    rw [if_pos (show isObjOrArr (J.arr xs) = true from rfl),
      if_pos (show ("properties" : String) = "properties" from rfl)]
    have ht : threadMap recur xs.toList v = .ok (xs.toList, v) := by
      apply threadMap_id
      intro x hm
      apply hrecur x (hcl x hm)
      have := sizeL_of_mem xs x hm
      simp only [sizeJ]
      omega
    rw [ht]
    simp only [wrapArrField, J.arrL, listOfList_toList]
  | itemsV _ hcl =>
    unfold resolveEntryWith
    dsimp only
    by_cases hio : isObjOrArr val = true
    · rw [if_pos hio, if_neg (show ¬ ("items" : String) = "properties" by decide),
        if_pos (show ("items" : String) = "items" from rfl)]
      rw [hrecur val hcl (le_refl _)]
      rfl
    · rw [if_neg hio]
  | compV _ xs hk hcl =>
    unfold resolveEntryWith
    dsimp only
    rw [if_pos (show isObjOrArr (J.arr xs) = true from rfl)]
    have hnp : k ≠ "properties" := by
      rcases hk with rfl | rfl | rfl <;> decide
    have hni : k ≠ "items" := by
      rcases hk with rfl | rfl | rfl <;> decide
    rw [if_neg hnp, if_neg hni, if_pos hk]
    have ht : threadMap recur xs.toList v = .ok (xs.toList, v) := by
      apply threadMap_id
      intro x hm
      apply hrecur x (hcl x hm)
      have := sizeL_of_mem xs x hm
      simp only [sizeJ]
      omega
    rw [ht]
    simp only [wrapArrField, J.arrL, listOfList_toList]
  | addV _ hcl =>
    unfold resolveEntryWith
    dsimp only
    by_cases hio : isObjOrArr val = true
    · rw [if_pos hio,
        if_neg (show ¬ ("additionalProperties" : String) = "properties" by decide),
        if_neg (show ¬ ("additionalProperties" : String) = "items" by decide),
        if_neg (show ¬ (("additionalProperties" : String) = "allOf" ∨
          ("additionalProperties" : String) = "anyOf" ∨
          ("additionalProperties" : String) = "oneOf") by decide),
        if_pos (show ("additionalProperties" : String) = "additionalProperties"
          from rfl)]
      rw [hrecur val hcl (le_refl _)]
      rfl
    · rw [if_neg hio]
  | otherK _ _ h1 h2 h3 h4 h5 h6 =>
    unfold resolveEntryWith
    dsimp only
    by_cases hio : isObjOrArr val = true
    · rw [if_pos hio, if_neg h1, if_neg h2, if_neg (not_or.mpr ⟨h3, not_or.mpr ⟨h4, h5⟩⟩),
        if_neg h6]
    · rw [if_neg hio]

/-- A second resolver pass over a `Clean` tree is the identity. -/
theorem resolveSchemaF_clean_id (spec : J) :
    ∀ (fuel : Nat) (t : J) (v : List String),
      Clean t → sizeJ t < fuel → resolveSchemaF spec fuel t v = .ok (t, v) := by
  intro fuel
  induction fuel with
  | zero => intro t v _ h; omega
  | succ fuel ih =>
    intro t v hc hsz
    cases t with
    | null => rfl
    | bool b => rfl
    | num n => rfl
    | str s2 => rfl
    | arr xs => rfl
    | obj fields =>
      cases hc with
      | base _ hne => exact absurd rfl (hne fields)
      | node _ hcl hent =>
        simp only [resolveSchemaF, hcl]
        have ht : threadMap
            (resolveEntryWith (fun s2 w => resolveSchemaF spec fuel s2 w))
            fields.toList v = .ok (fields.toList, v) := by
          apply threadMap_id
          intro kv hm
          have hsv := sizeO_of_mem fields kv.1 kv.2 hm
          have hentry := hent kv.1 kv.2 hm
          have hid := resolveEntryWith_id
            (fun s2 w => resolveSchemaF spec fuel s2 w) kv.1 kv.2 v ?_ hentry
          · exact hid
          · intro x hcx hsx
            apply ih x v hcx
            simp only [sizeJ] at hsz
            omega
        rw [ht]
        simp only [wrapObjOut, J.objL, objOfList_toList]

/-- The schema whose two pointers share one target. -/
def sharedRefSchema : J :=
  J.objL [("properties", J.objL
    [("a", J.objL [("$ref", .str "#/components/schemas/A")]),
     ("b", J.objL [("$ref", .str "#/components/schemas/A")])])]

/-- First resolution: the first pointer expands, the second is left as an
unresolved marker because the visited set is shared across siblings. -/
def sharedOnce : J :=
  J.objL [("properties", J.objL
    [("a", J.objL [("type", .str "string")]),
     ("b", J.objL [("$ref", .str "#/components/schemas/A")])])]

/-- Second resolution expands the leftover pointer. -/
def sharedTwice : J :=
  J.objL [("properties", J.objL
    [("a", J.objL [("type", .str "string")]),
     ("b", J.objL [("type", .str "string")])])]

/-- C8, counterexample: `sharedRefSchema` contains only acyclic local
pointers, yet resolving twice is not the same as resolving once — the
shared visited set makes the second sibling reference resolve to a marker
on the first pass and to the expansion on the second pass. -/
theorem resolveSchema_not_idempotent_on_shared_refs :
    resolveSchema specA sharedRefSchema =
      .ok (sharedOnce, ["#/components/schemas/A"]) ∧
    resolveSchema specA sharedOnce =
      .ok (sharedTwice, ["#/components/schemas/A"]) ∧
    sharedOnce ≠ sharedTwice := by
  refine ⟨rfl, rfl, by decide⟩

/-- C8, amended: resolution is idempotent on every schema whose resolved
output is `Clean` — free of `$ref` nodes at traversed positions (and of
object-valued composition keys).  Acyclicity alone does not suffice (see
the counterexample): a pointer target referenced twice leaves a marker. -/
theorem resolveSchema_idempotent_when_output_clean (spec s out : J)
    (v : List String)
    (h1 : resolveSchema spec s = .ok (out, v)) (h2 : Clean out) :
    resolveSchema spec out = .ok (out, []) := by
  unfold resolveSchema
  apply resolveSchemaF_clean_id spec _ out [] h2
  unfold fuelBound
  have hp : 0 ≤ (sizeJ spec + sizeJ out + 1) * (sizeJ spec + 4) := Nat.zero_le _
  omega

/-- C8 witness: the amended idempotence at a concrete resolution. -/
theorem resolveSchema_idempotent_when_output_clean_witness :
    resolveSchema specA (J.objL [("type", .str "string")]) =
      .ok (J.objL [("type", .str "string")], []) := by
  have hclean : Clean (J.objL [("type", .str "string")]) := by
    apply Clean.node
    · rfl
    · intro k val hm
      simp only [J.objL, JObj.ofList, JObj.toList, List.mem_singleton,
        Prod.mk.injEq] at hm
      obtain ⟨rfl, rfl⟩ := hm
      exact CleanEntry.skip _ _ rfl
  exact resolveSchema_idempotent_when_output_clean specA
    (J.objL [("$ref", .str "#/components/schemas/A")])
    (J.objL [("type", .str "string")]) ["#/components/schemas/A"] rfl hclean

/-! ### C6: nullable conversion through the recursion channels -/

/-- C6 counterexample: a node carrying `nullable = true` but no `type`
field converts to an object with no `type` key at all — no union that
includes null is produced, refuting the claim for nodes without a truthy
type (the conversion guards the union on `result.type` being truthy). -/
theorem toMCPSchema_nullable_without_type_no_union :
    toMCPSchema (J.objL [("nullable", .bool true)]) = .ok (J.objL []) ∧
    lookupField ([] : List (String × J)) "type" = none :=
  ⟨rfl, rfl⟩

/-- C6 (amended): for every schema node reachable from the root through the
conversion's recursion channels (object properties, array-shaped
properties, truthy items, allOf/anyOf/oneOf branches, object-valued
additionalProperties) that carries `nullable = true` AND a truthy `type`,
toMCPSchema converts that node to an object whose `type` is an array
containing the string "null", and the `nullable` key is removed. -/
theorem toMCPSchema_nullable_union_deep (s u out : J)
    (hreach : Relation.ReflTransGen MChild s u)
    (hok : toMCPSchema s = .ok out)
    (fields : JObj) (hu : u = .obj fields)
    (hnul : lookupField fields.toList "nullable" = some (.bool true))
    (t0 : J) (ht : lookupField fields.toList "type" = some t0)
    (htr : truthy t0 = true) :
    ∃ u2 r8 ts, toMCPSchema u = .ok u2 ∧
      Relation.ReflTransGen MChild out u2 ∧ u2 = J.objL r8 ∧
      lookupField r8 "type" = some (.arr ts) ∧
      (J.str "null") ∈ ts.toList ∧
      lookupField r8 "nullable" = none := by
  obtain ⟨u2, hu2, hr2⟩ := toMCP_reach s u out hreach hok
  subst hu
  obtain ⟨r8, hout, hty, hnl⟩ :=
    toMCPSchema_nullable_node fields u2 t0 hu2 hnul ht htr
  obtain ⟨ts, hts, hmem⟩ := typeWithNull_has_null t0
  exact ⟨u2, r8, ts, hu2, hr2, hout, by rw [hty, hts], hmem, hnl⟩

/-- Inner nullable node used by the C6 witness. -/
def c6inner : J := J.objL [("type", .str "string"), ("nullable", .bool true)]

/-- Root schema of the C6 witness: the nullable node sits one properties
step below the root. -/
def c6spec : J := J.objL [("properties", J.objL [("a", c6inner)])]

/-- Converted form of the C6 witness root. -/
def c6out : J :=
  J.objL [("properties",
    J.objL [("a", J.objL [("type", J.arrL [.str "string", .str "null"])])])]

/-- C6 witness: the amended theorem applied one properties-step deep in a
concrete schema. -/
theorem toMCPSchema_nullable_union_deep_witness :
    ∃ u2 r8 ts, toMCPSchema c6inner = .ok u2 ∧
      Relation.ReflTransGen MChild c6out u2 ∧ u2 = J.objL r8 ∧
      lookupField r8 "type" = some (.arr ts) ∧
      (J.str "null") ∈ ts.toList ∧
      lookupField r8 "nullable" = none :=
  toMCPSchema_nullable_union_deep c6spec c6inner c6out
    (Relation.ReflTransGen.tail Relation.ReflTransGen.refl
      (MChild.propsObj (JObj.ofList [("properties", J.objL [("a", c6inner)])])
        (JObj.ofList [("a", c6inner)]) "a" c6inner rfl
        (by rw [objToList_ofList]; exact List.mem_singleton.mpr rfl)))
    rfl
    (JObj.ofList [("type", .str "string"), ("nullable", .bool true)]) rfl
    rfl (.str "string") rfl rfl

/-! ### C4: search-tool generation -/

/-- The anchored regex of extractEntityType matches exactly the
single-segment search paths: a leading slash, one nonempty slash-free
segment, then exactly "/search". -/
theorem extractEntityType_spec (path seg : String) :
    extractEntityType path = some seg ↔
      (path = "/" ++ seg ++ "/search" ∧ seg ≠ "" ∧
        ∀ c ∈ seg.data, c ≠ '/') := by
  constructor
  · intro h
    cases hd : path.data with
    | nil =>
      simp only [extractEntityType, hd] at h
      cases h
    | cons c rest =>
      simp only [extractEntityType, hd] at h
      by_cases hc : c = '/'
      · rw [if_pos hc] at h
        subst hc
        by_cases he : (rest.takeWhile (fun c2 => c2 != '/')).isEmpty = true
        · rw [if_pos he] at h
          cases h
        · rw [if_neg he] at h
          by_cases hdrop :
              rest.dropWhile (fun c2 => c2 != '/') = "/search".data
          · rw [if_pos hdrop] at h
            have hseg : seg =
                String.mk (rest.takeWhile (fun c2 => c2 != '/')) :=
              (Option.some_inj.mp h).symm
            subst hseg
            refine ⟨?_, ?_, ?_⟩
            · apply String.ext
              rw [hd]
              have hsplit : rest.takeWhile (fun c2 => c2 != '/') ++
                  rest.dropWhile (fun c2 => c2 != '/') = rest :=
                List.takeWhile_append_dropWhile _ _
              simp only [String.data_append]
              have hres : rest = List.takeWhile (fun c2 => c2 != '/') rest ++
                  "/search".data := by rw [← hdrop, hsplit]
              conv_lhs => rw [hres]
              simp
            · intro hemp
              apply he
              have hdata : rest.takeWhile (fun c2 => c2 != '/') = [] :=
                congrArg String.data hemp
              rw [hdata]
              rfl
            · intro c hc2
              have hp := List.mem_takeWhile_imp hc2
              exact bne_iff_ne.mp hp
          · rw [if_neg hdrop] at h
            cases h
      · rw [if_neg hc] at h
        cases h
  · rintro ⟨hpath, hne, hfree⟩
    have hd : path.data = '/' :: (seg.data ++ "/search".data) := by
      rw [hpath]
      simp [String.data_append]
    have hall : ∀ a ∈ seg.data, (fun c2 => c2 != '/') a = true := by
      intro a ha
      simp only [bne_iff_ne]
      exact hfree a ha
    have htake : (seg.data ++ "/search".data).takeWhile
        (fun c2 => c2 != '/') = seg.data := by
      rw [List.takeWhile_append_of_pos hall]
      rw [show ("/search".data.takeWhile (fun c2 => c2 != '/')) = []
        from rfl]
      simp
    have hdrop : (seg.data ++ "/search".data).dropWhile
        (fun c2 => c2 != '/') = "/search".data := by
      rw [List.dropWhile_append_of_pos hall]
      decide
    have hnonempty : ¬((seg.data ++ "/search".data).takeWhile
        (fun c2 => c2 != '/')).isEmpty = true := by
      rw [htake]
      intro habs
      apply hne
      apply String.ext
      cases hsd : seg.data with
      | nil => rfl
      | cons a l => rw [hsd] at habs; cases habs
    have htakeE : List.takeWhile (fun c2 => c2 != '/')
        (seg.data ++ ['/', 's', 'e', 'a', 'r', 'c', 'h']) = seg.data := htake
    have hdropE : List.dropWhile (fun c2 => c2 != '/')
        (seg.data ++ ['/', 's', 'e', 'a', 'r', 'c', 'h']) =
        ['/', 's', 'e', 'a', 'r', 'c', 'h'] := hdrop
    have hnonE : ¬(List.takeWhile (fun c2 => c2 != '/')
        (seg.data ++ ['/', 's', 'e', 'a', 'r', 'c', 'h'])).isEmpty = true :=
      hnonempty
    simp only [extractEntityType, hd]
    rw [if_pos trivial, if_neg hnonE, if_pos hdropE, htakeE]

/-- C4 (amended): for a given path and path item, a search tool is
generated (at the per-path step of generateSearchTools) exactly when the
path consists of a SINGLE nonempty slash-free segment followed by
"/search", the path item has a truthy `post` operation, and the input
schema extraction succeeds; the entity type is that single segment — not
merely the segment immediately preceding "/search" — and the tool name is
"search" followed by the capitalized entity type. -/
theorem generateSearchTool_iff (spec : J) (path : String) (pathItem : J)
    (t : SearchToolInfo) :
    generateSearchTool spec path pathItem = .ok (some t) ↔
      ∃ seg op schema,
        path = "/" ++ seg ++ "/search" ∧ seg ≠ "" ∧
        (∀ c ∈ seg.data, c ≠ '/') ∧
        jsGet pathItem "post" = some op ∧ truthy op = true ∧
        extractInputSchema spec op = .ok (some schema) ∧
        t = ⟨"search" ++ String.mk (capFirst seg.data), seg, schema⟩ := by
  constructor
  · intro h
    cases hpost : jsGet pathItem "post" with
    | none =>
      simp only [generateSearchTool, hpost] at h
      cases h
    | some op =>
      simp only [generateSearchTool, hpost] at h
      by_cases htr : truthy op = true
      · rw [if_pos htr] at h
        cases hent : extractEntityType path with
        | none =>
          simp only [hent] at h
          cases h
        | some entity =>
          simp only [hent] at h
          cases hsch : extractInputSchema spec op with
          | error e =>
            simp only [hsch] at h
            cases h
          | ok o =>
            cases o with
            | none =>
              simp only [hsch] at h
              cases h
            | some schema =>
              simp only [hsch] at h
              cases h
              obtain ⟨hp, hne, hfree⟩ :=
                (extractEntityType_spec path entity).mp hent
              exact ⟨entity, op, schema, hp, hne, hfree, rfl, htr, hsch, rfl⟩
      · rw [if_neg htr] at h
        cases h
  · rintro ⟨seg, op, schema, hp, hne, hfree, hpost, htr, hsch, ht⟩
    have hent : extractEntityType path = some seg :=
      (extractEntityType_spec path seg).mpr ⟨hp, hne, hfree⟩
    subst ht
    simp only [generateSearchTool, hpost, if_pos htr, hent, hsch]
    rfl

/-- The POST operation of the C4 examples, carrying a request body whose
application/json schema is `{type: "object"}`. -/
def c4op : J :=
  J.objL [("operationId", .str "x"),
    ("requestBody", J.objL [("content", J.objL [("application/json",
      J.objL [("schema", J.objL [("type", .str "object")])])])])]

/-- A path item exposing that POST operation. -/
def c4item : J := J.objL [("post", c4op)]

/-- A spec whose only path is the two-segment search path /a/b/search. -/
def c4spec : J := J.objL [("paths", J.objL [("/a/b/search", c4item)])]

/-- C4 counterexample: the path "/a/b/search" ends with "/search", its
path item exposes a truthy POST operation, and the input-schema extraction
succeeds — yet generateSearchTools produces NO tool for it, because the
anchored entity-type regex only matches single-segment paths (the claim
would predict a tool for entity type "b", the segment immediately
preceding "/search"). -/
theorem generateSearchTools_multiseg_counterexample :
    endsWithStr "/a/b/search" "/search" = true ∧
    jsGet c4item "post" = some c4op ∧ truthy c4op = true ∧
    extractInputSchema c4spec c4op =
      .ok (some (wrapInputSchema (J.objL [("type", .str "object")]))) ∧
    extractEntityType "/a/b/search" = none ∧
    generateSearchTools c4spec = .ok [] :=
  ⟨by decide, rfl, rfl, rfl, rfl, rfl⟩

/-- C4 witness: the amended characterization applied at the single-segment
path "/widgets/search", yielding the tool named "searchWidgets". -/
theorem generateSearchTool_iff_witness :
    generateSearchTool c4spec "/widgets/search" c4item =
      .ok (some ⟨"searchWidgets", "widgets",
        wrapInputSchema (J.objL [("type", .str "object")])⟩) :=
  (generateSearchTool_iff c4spec "/widgets/search" c4item _).mpr
    ⟨"widgets", c4op, wrapInputSchema (J.objL [("type", .str "object")]),
      by decide, by decide, by decide, rfl, rfl, rfl, by decide⟩

/-! ### C3: path-placeholder binding -/

theorem lookupField_removeField_ne (kvs : List (String × J)) (q k : String)
    (h : k ≠ q) : lookupField (removeField kvs q) k = lookupField kvs k :=
  lookupField_filter _ k (fun _ => by simp [h]) kvs

theorem substAll_congr : ∀ (params : List String) (path : List Char)
    (kvs kvs2 : List (String × J)),
    (∀ p ∈ params, lookupField kvs p = lookupField kvs2 p) →
    substAll kvs path params = substAll kvs2 path params := by
  intro params
  induction params with
  | nil => intro _ _ _ _; rfl
  | cons q rest ih =>
    intro path kvs kvs2 h
    simp only [substAll, List.foldl_cons,
      h q (List.mem_cons_self _ _)]
    exact ih _ kvs kvs2 (fun p hp => h p (List.mem_cons_of_mem _ hp))

theorem substLoop_absent : ∀ (params : List String) (path : List Char)
    (kvs : List (String × J)) (p : String),
    p ∈ params → lookupField kvs p = none →
    ∃ q, substLoop params path kvs =
      .error ("Missing required path parameter: " ++ q) := by
  intro params
  induction params with
  | nil => intro _ _ p hm; cases hm
  | cons q rest ih =>
    intro path kvs p hm habs
    cases hl : lookupField kvs q with
    | none =>
      refine ⟨q, ?_⟩
      simp only [substLoop, hl]
    | some v =>
      have hpq : p ≠ q := fun h => by rw [h, hl] at habs; cases habs
      have hm2 : p ∈ rest := by
        rcases List.mem_cons.mp hm with h | h
        · exact absurd h hpq
        · exact h
      have habs2 : lookupField (removeField kvs q) p = none := by
        rw [lookupField_removeField_ne _ _ _ hpq]
        exact habs
      obtain ⟨q2, herr⟩ := ih _ _ p hm2 habs2
      refine ⟨q2, ?_⟩
      simp only [substLoop, hl]
      exact herr

theorem substLoop_nodup : ∀ (params : List String) (path : List Char)
    (kvs : List (String × J)), params.Nodup →
    (∀ p ∈ params, (lookupField kvs p).isSome = true) →
    substLoop params path kvs =
      .ok (substAll kvs path params,
        kvs.filter (fun kv => decide (¬ kv.1 ∈ params))) := by
  intro params
  induction params with
  | nil =>
    intro path kvs _ _
    simp [substLoop, substAll]
  | cons q rest ih =>
    intro path kvs hnd hall
    have hq := hall q (List.mem_cons_self _ _)
    cases hl : lookupField kvs q with
    | none => rw [hl] at hq; cases hq
    | some v =>
      obtain ⟨hqr, hndr⟩ := List.nodup_cons.mp hnd
      have hall2 : ∀ p ∈ rest,
          (lookupField (removeField kvs q) p).isSome = true := by
        intro p hp
        rw [lookupField_removeField_ne _ _ _
          (fun h => hqr (by rw [← h]; exact hp))]
        exact hall p (List.mem_cons_of_mem _ hp)
      simp only [substLoop, hl]
      rw [ih _ _ hndr hall2]
      have hurl : substAll (removeField kvs q)
          (replaceFirst path (phPat q)
            (encodeURIComponent (jsToString v)).data) rest =
          substAll kvs
            (replaceFirst path (phPat q)
              (encodeURIComponent (jsToString v)).data) rest :=
        substAll_congr rest _ _ _
          (fun p hp => lookupField_removeField_ne _ _ _
            (fun h => hqr (by rw [← h]; exact hp)))
      have hdata : (removeField kvs q).filter
          (fun kv => decide (¬ kv.1 ∈ rest)) =
          kvs.filter (fun kv => decide (¬ kv.1 ∈ q :: rest)) := by
        unfold removeField
        rw [List.filter_filter]
        apply List.filter_congr
        intro kv _
        by_cases h1 : kv.1 = q <;> by_cases h2 : kv.1 ∈ rest <;>
          simp [h1, h2]
      rw [hurl, hdata]
      simp only [substAll, List.foldl_cons, hl]

/-- C3 (amended): provided the scanned placeholder names of the path are
pairwise distinct, when every placeholder has a field in the input the
closure builds a request whose url substitutes each placeholder's FIRST
textual occurrence with the percent-encoded string coercion of that field,
whose remaining fields are exactly the input fields not named by a
placeholder, routed to the query for get/delete and to the body otherwise
(omitted when empty); and whenever some placeholder's field is absent the
closure fails with a missing-required-path-parameter error before any
request is built.  (With a repeated placeholder name the loop deletes the
field at its first iteration and fails at the second even though the field
was supplied — hence the distinctness hypothesis; see the counterexample.) -/
theorem apiCallRequest_spec (path method : String) (input : J) :
    ((pathPlaceholders path).Nodup →
      (∀ p ∈ pathPlaceholders path,
        (lookupField (spreadFields input) p).isSome = true) →
      apiCallRequest path method input = .ok
        (if String.mk (method.data.map Char.toLower) = "get" ∨
            String.mk (method.data.map Char.toLower) = "delete" then
          ⟨String.mk (method.data.map Char.toLower),
           String.mk (substAll (spreadFields input) path.data
             (pathPlaceholders path)),
           if ((spreadFields input).filter
               (fun kv => decide (¬ kv.1 ∈ pathPlaceholders path))).isEmpty
           then none
           else some ((spreadFields input).filter
             (fun kv => decide (¬ kv.1 ∈ pathPlaceholders path))),
           none⟩
        else
          ⟨String.mk (method.data.map Char.toLower),
           String.mk (substAll (spreadFields input) path.data
             (pathPlaceholders path)),
           none,
           if ((spreadFields input).filter
               (fun kv => decide (¬ kv.1 ∈ pathPlaceholders path))).isEmpty
           then none
           else some ((spreadFields input).filter
             (fun kv => decide (¬ kv.1 ∈ pathPlaceholders path)))⟩)) ∧
    (∀ p ∈ pathPlaceholders path,
      lookupField (spreadFields input) p = none →
      ∃ q, apiCallRequest path method input =
        .error ("Missing required path parameter: " ++ q)) := by
  constructor
  · intro hnd hall
    simp only [apiCallRequest,
      substLoop_nodup (pathPlaceholders path) path.data
        (spreadFields input) hnd hall]
    by_cases hml : String.mk (method.data.map Char.toLower) = "get" ∨
        String.mk (method.data.map Char.toLower) = "delete"
    · rw [if_pos hml, if_pos hml]
    · rw [if_neg hml, if_neg hml]
  · intro p hp habs
    obtain ⟨q, herr⟩ := substLoop_absent (pathPlaceholders path) path.data
      (spreadFields input) p hp habs
    refine ⟨q, ?_⟩
    simp only [apiCallRequest, herr]

/-- The duplicated-placeholder path `/a/\x7bx\x7d/\x7bx\x7d` (built
from code points to keep braces out of string literals). -/
def dupPath : String :=
  String.mk ['/', 'a', '/', lbrace, 'x', rbrace, '/', lbrace, 'x', rbrace]

/-- C3 counterexample: the input supplies the field `x` named by BOTH
placeholders of `/a/\x7bx\x7d/\x7bx\x7d`, yet the closure throws the
missing-parameter error — the first iteration deletes `x` after
substituting the first occurrence, so the second iteration finds it
absent.  No placeholder's field is absent from the input, refuting the
claim that the call fails only in that case (and that each placeholder is
replaced by the field's value). -/
theorem apiCallRequest_duplicate_counterexample :
    pathPlaceholders dupPath = ["x", "x"] ∧
    lookupField (spreadFields (J.objL [("x", .str "v")])) "x" =
      some (.str "v") ∧
    apiCallRequest dupPath "get" (J.objL [("x", .str "v")]) =
      .error "Missing required path parameter: x" :=
  ⟨rfl, rfl, rfl⟩

/-- The witness path `/widgets/\x7bid\x7d/export`. -/
def c3path : String :=
  String.mk ("/widgets/".data ++ lbrace :: "id".data ++
    rbrace :: "/export".data)

/-- The witness input `\x7bid: "a b", format: "csv"\x7d`. -/
def c3input : J := J.objL [("id", .str "a b"), ("format", .str "csv")]

/-- C3 witness: the amended theorem at the path `/widgets/\x7bid\x7d/export`
with input `\x7bid: "a b", format: "csv"\x7d` and method GET: the id is
percent-encoded into the url (space becomes %20), removed from the
remaining fields, and `format` is routed to the query string. -/
theorem apiCallRequest_spec_witness :
    apiCallRequest c3path "GET" c3input =
      .ok ⟨"get", "/widgets/a%20b/export",
        some [("format", J.str "csv")], none⟩ :=
  ((apiCallRequest_spec c3path "GET" c3input).1 (by decide) (by decide)).trans
    (by rfl)

end MCP
